import Mathlib

/-!
# Verification of the gear-mesh generator (`app/gearx/gear.py`)

Shallow embedding of the involute-gear mesh generator: constructor
normalization and derived radii, profile-point assembly, topology-branch
selection, and the rotational stitching (node/cell index remapping) that
assembles the full wheel from one tooth.  Machine floats are modelled by
exact reals; the scipy root solver and the external quadrilateral
sub-domain mesh generator are collaborators outside this module, so their
results enter as parameters constrained by the interface contract.
-/

open Real

namespace Gearx

/-! ## Constructor: angle normalization and validation (gear.py:29-59) -/

/-- `numpy.radians`: degree-to-radian conversion used at gear.py:33-34. -/
noncomputable def pyRadians (x : ℝ) : ℝ := x * π / 180

open Classical in
/-- gear.py:33-34: `alpha_n if alpha_n < 2 * pi else radians(alpha_n)`;
the same expression is applied to `beta`. -/
noncomputable def normalizeAngle (x : ℝ) : ℝ :=
  if x < 2 * π then x else pyRadians x

/-- A Python numeric value passed as the tooth count `z`: either an `int`
or a `float` (rationals model the binary64 values exactly). -/
inductive PyNum where
  | int (n : ℤ)
  | float (q : ℚ)
deriving DecidableEq

/-- `isinstance(z, int)`. -/
def isInstInt : PyNum → Bool
  | .int _ => true
  | .float _ => false

/-- `isinstance(z, float)`. -/
def isInstFloat : PyNum → Bool
  | .int _ => false
  | .float _ => true

/-- `z.is_integer()` (float method; an `int` never reaches this call in the
short-circuit, and the value chosen for it is irrelevant there). -/
def floatIsInteger : PyNum → Bool
  | .int _ => true
  | .float q => decide (q.den = 1)

/-- gear.py:29: `not isinstance(z, int) or (isinstance(z, float) and not
z.is_integer())` — the condition under which `Gear.__init__` raises. -/
def zCheckFails (z : PyNum) : Bool :=
  (!isInstInt z) || (isInstFloat z && !floatIsInteger z)

/-- The Python exceptions this module can raise. -/
inductive PyErr where
  | typeError
  | nameError
deriving DecidableEq

/-- The fields `Gear.__init__` stores (gear.py:31-59): raw parameters,
the normalized angles, and the derived transverse quantities. -/
structure GearCore where
  m_n : ℝ
  zv : ℝ
  alpha_n : ℝ
  beta : ℝ
  x_n : ℝ
  hac : ℝ
  cc : ℝ
  x_t : ℝ
  alpha_t : ℝ
  m_t : ℝ
  r : ℝ
  r_b : ℝ

/-- Numeric value of the tooth count. -/
def PyNum.val : PyNum → ℝ
  | .int n => (n : ℝ)
  | .float q => (q : ℝ)

open Classical in
/-- `Gear.__init__` (gear.py:10-59).  The only validation is the
tooth-count type check at lines 29-30 (raising `TypeError`); every other
statement is arithmetic on floats, which raises no exception, so a
non-positive module or degenerate angle is stored without complaint. -/
noncomputable def gearInit (m_n : ℝ) (z : PyNum) (alpha_n beta x_n hac cc : ℝ) :
    Except PyErr GearCore :=
  if zCheckFails z then .error .typeError
  else
    let an := normalizeAngle alpha_n
    let b := normalizeAngle beta
    let xt := x_n / cos b
    let at_ := arctan (tan an / cos b)
    let mt := m_n / cos b
    .ok { m_n := m_n, zv := z.val, alpha_n := an, beta := b, x_n := x_n,
          hac := hac, cc := cc, x_t := xt, alpha_t := at_, m_t := mt,
          r := mt * z.val / 2, r_b := mt * z.val * cos at_ / 2 }

/-! ## Derived radii (gear.py:49-59, 126-139, 675-682) -/

/-- The configuration parameters entering the radius formulas, after
normalization (`z` is the validated positive tooth count). -/
structure Params where
  m_n : ℝ
  z : ℕ
  alpha_n : ℝ
  beta : ℝ
  x_n : ℝ
  hac : ℝ
  cc : ℝ

namespace Params

/-- gear.py:49: transverse shift coefficient `x_t = x_n / cos(beta)`. -/
noncomputable def x_t (g : Params) : ℝ := g.x_n / cos g.beta

/-- gear.py:51: transverse pressure angle
`alpha_t = arctan(tan(alpha_n) / cos(beta))`. -/
noncomputable def alpha_t (g : Params) : ℝ := arctan (tan g.alpha_n / cos g.beta)

/-- gear.py:53: transverse module `m_t = m_n / cos(beta)`. -/
noncomputable def m_t (g : Params) : ℝ := g.m_n / cos g.beta

/-- gear.py:55: pitch diameter `d = m_t * z`. -/
noncomputable def d (g : Params) : ℝ := g.m_t * g.z

/-- gear.py:56: pitch radius `r = d / 2`. -/
noncomputable def r (g : Params) : ℝ := g.d / 2

/-- gear.py:58-59: base radius `r_b = d * cos(alpha_t) / 2`. -/
noncomputable def r_b (g : Params) : ℝ := g.d * cos g.alpha_t / 2

/-- gear.py:127-129: external tip radius
`r_a = (d + 2 * m_n * (hac + x_t)) / 2`. -/
noncomputable def ext_r_a (g : Params) : ℝ := (g.d + 2 * (g.m_n * (g.hac + g.x_t))) / 2

/-- gear.py:131-133: external root radius
`r_f = (d - 2 * m_n * (hac + cc - x_t)) / 2`. -/
noncomputable def ext_r_f (g : Params) : ℝ := (g.d - 2 * (g.m_n * (g.hac + g.cc - g.x_t))) / 2

/-- gear.py:676-678: internal tip radius
`r_a = (d - 2 * m_n * (hac - x_n)) / 2`. -/
noncomputable def int_r_a (g : Params) : ℝ := (g.d - 2 * (g.m_n * (g.hac - g.x_n))) / 2

/-- gear.py:680-682: internal root radius
`r_f = (d + 2 * m_n * (hac + cc + x_n)) / 2`. -/
noncomputable def int_r_f (g : Params) : ℝ := (g.d + 2 * (g.m_n * (g.hac + g.cc + g.x_n))) / 2

end Params

/-! ## Profile-point assembly (gear.py:194-229, 771-861) -/

/-- A planar point. -/
abbrev Pt2 := ℝ × ℝ

/-- The mirror about the tooth centerline (the y-axis), gear.py:226-227. -/
def mirrorPt (p : Pt2) : Pt2 := (-p.1, p.2)

/-- `ExternalGear.get_profile_points` (gear.py:194-229): the first half is
the sampled transition curve (`n2+1` points, line 219) followed by the
sampled involute (`n1` points, line 223); lines 226-227 then append the
mirror image of the first half **in the same order**.  The transcendental
curve samples enter as the lists `trans` and `inv`. -/
def externalProfilePoints (trans inv : List Pt2) : List Pt2 :=
  (trans ++ inv) ++ (trans ++ inv).map mirrorPt

/-- `InternalGear.get_profile_points` (gear.py:788-859, both fillet
branches): the first part (involute + transition (+ root-arc) samples) is
followed by the midpoint — whose x-coordinate is literally `0`
(lines 798, 843) — and then by the mirror image of the first part in
**reversed** order (lines 810-811, 858-859). -/
def internalProfilePoints (first : List Pt2) (midY : ℝ) : List Pt2 :=
  first ++ [((0 : ℝ), midY)] ++ (first.map mirrorPt).reverse

/-! ## Rotation and the topology-branch test (gear.py:287-301) -/

/-- The rotation used throughout `generate_mesh`
(`rot_matrix = [[cos, -sin], [sin, cos]]` applied to column vectors). -/
noncomputable def rotPt (phi : ℝ) (p : Pt2) : Pt2 :=
  (cos phi * p.1 - sin phi * p.2, sin phi * p.1 + cos phi * p.2)

open Classical in
/-- `numpy.arctan2 (y, x)` (gear.py:294-296). -/
noncomputable def arctan2 (y x : ℝ) : ℝ :=
  if 0 < x then arctan (y / x)
  else if x < 0 then (if 0 ≤ y then arctan (y / x) + π else arctan (y / x) - π)
  else (if 0 < y then π / 2 else if y < 0 then -(π / 2) else 0)

/-- gear.py:288-297: `kp_1` rotated by `rot_phi[1] = 2π/z`, compared in
angular position with `kp_4`:
`delta_angle = |arctan2(rot_kp_1) - arctan2(kp_4)|`. -/
noncomputable def extDeltaAngle (z : ℕ) (kp1 kp4 : Pt2) : ℝ :=
  |arctan2 (rotPt (2 * π / z) kp1).2 (rotPt (2 * π / z) kp1).1 - arctan2 kp4.2 kp4.1|

/-- gear.py:301: the reduced (degenerate root-fillet) topology branch is
taken iff `delta_angle < 1e-12`, where `kp_1 = points[n1+n2+1]` and
`kp_4 = points[0]` (gear.py:254-255). -/
def extReducedBranchSelected (z n1 n2 : ℕ) (points : List Pt2) : Prop :=
  extDeltaAngle z (points.getD (n1 + n2 + 1) (0, 0)) (points.getD 0 (0, 0)) < 1e-12

/-! ## `InternalGear` cached solver state `self.t` (gear.py:702-712, 788-829) -/

open Classical in
/-- Effect of one `InternalGear.get_profile_points()` call on the instance
field `self.t`.  On entry `t` holds the 3-component solution of the
construction-time system (gear.py:704-712).  The thick branch
(`rc >= t[2]`, line 788) never assigns `self.t`; the thin-fillet branch
solves the 4-unknown system (lines 815-828) and stores its result at
line 829 (`self.t = t`).  The scipy solve result enters as `solve4`. -/
noncomputable def profileCallUpdatesT (rc : ℝ) (solve4 : List ℝ) (t : List ℝ) : List ℝ :=
  if t.getD 2 0 ≤ rc then t else solve4

/-! ## `InternalGear.generate_mesh` and the free variable `outer_diam`
(gear.py:863-1322) -/

open Classical in
/-- `InternalGear.generate_mesh`.  Both topology branches read the bare
module-level name `outer_diam` (first at line 879 resp. line 1094, then
again when building key points and boundary lines), never the instance
field `self.outer_diam` stored at line 672.  `envOuterDiam` models the
module-global binding of that name (`none` = not defined, the state when
the module is imported rather than run as a script).  The value `t1`
computed at line 879/1094 is handed to the rest of the branch, which is
abstracted by the continuations `thickRest`/`thinRest` since no further
statement can run when the lookup fails. -/
noncomputable def internalGenerateMesh (envOuterDiam : Option ℝ)
    (selfOuterDiam rc t2 r_f r_a : ℝ) (thickRest thinRest : ℝ → List Pt2) :
    Except PyErr (List Pt2) :=
  if t2 ≤ rc then
    match envOuterDiam with
    | none => .error .nameError
    | some od => .ok (thickRest ((r_f - r_a) / (od / 2 - r_a) * 1.236))
  else
    match envOuterDiam with
    | none => .error .nameError
    | some od => .ok (thinRest ((r_f - r_a) / (od / 2 - r_a) * 1.236))

/-! ## Indexing lemmas for the assembled profiles -/

theorem externalProfilePoints_getD_left (trans inv : List Pt2) (k : ℕ)
    (hk : k < (trans ++ inv).length) :
    (externalProfilePoints trans inv).getD k (0, 0) = (trans ++ inv).getD k (0, 0) := by
  unfold externalProfilePoints
  rw [List.getD_eq_getElem?_getD, List.getElem?_append_left hk,
    ← List.getD_eq_getElem?_getD]

theorem externalProfilePoints_getD_mirror (trans inv : List Pt2) (k : ℕ)
    (hk : k < (trans ++ inv).length) :
    (externalProfilePoints trans inv).getD ((trans ++ inv).length + k) (0, 0)
      = mirrorPt ((trans ++ inv).getD k (0, 0)) := by
  unfold externalProfilePoints
  rw [List.getD_eq_getElem?_getD, List.getElem?_append_right (Nat.le_add_right _ _)]
  rw [Nat.add_sub_cancel_left, List.getElem?_map, List.getElem?_eq_getElem hk]
  rw [List.getD_eq_getElem?_getD, List.getElem?_eq_getElem hk]
  rfl

theorem internalProfilePoints_getD_first (first : List Pt2) (midY : ℝ) (k : ℕ)
    (hk : k < first.length) :
    (internalProfilePoints first midY).getD k (0, 0) = first.getD k (0, 0) := by
  unfold internalProfilePoints
  rw [List.getD_eq_getElem?_getD, List.getElem?_append_left, List.getElem?_append_left hk,
    ← List.getD_eq_getElem?_getD]
  simp
  omega

theorem internalProfilePoints_getD_mid (first : List Pt2) (midY : ℝ) :
    (internalProfilePoints first midY).getD first.length (0, 0) = ((0 : ℝ), midY) := by
  unfold internalProfilePoints
  rw [List.getD_eq_getElem?_getD, List.getElem?_append_left,
    List.getElem?_append_right (Nat.le_refl _)]
  · simp
  · simp

theorem internalProfilePoints_getD_tail (first : List Pt2) (midY : ℝ) (k : ℕ)
    (hk1 : first.length < k) (hk2 : k < 2 * first.length + 1) :
    (internalProfilePoints first midY).getD k (0, 0)
      = mirrorPt (first.getD (2 * first.length - k) (0, 0)) := by
  unfold internalProfilePoints
  have hlen : (first ++ [((0 : ℝ), midY)]).length = first.length + 1 := by simp
  rw [List.getD_eq_getElem?_getD, List.getElem?_append_right (by omega : (first ++ [((0 : ℝ), midY)]).length ≤ k)]
  have hrev : k - (first ++ [((0 : ℝ), midY)]).length < (first.map mirrorPt).reverse.length := by
    simp; omega
  rw [List.getElem?_reverse (by simpa using hrev)]
  have hidx : (first.map mirrorPt).length - 1 - (k - (first ++ [((0 : ℝ), midY)]).length)
      = 2 * first.length - k := by
    simp; omega
  rw [hidx, List.getElem?_map, List.getElem?_eq_getElem (by omega : 2 * first.length - k < first.length)]
  rw [List.getD_eq_getElem?_getD, List.getElem?_eq_getElem (by omega : 2 * first.length - k < first.length)]
  rfl

theorem mirrorPt_mirrorPt (p : Pt2) : mirrorPt (mirrorPt p) = p := by
  simp [mirrorPt]

/-! ## Claim C10 — angle normalization at construction -/

/-- C10: each angle field is stored unchanged when strictly below `2π`,
and converted from degrees (`numpy.radians`) when `≥ 2π` (gear.py:33-34). -/
theorem C10_angle_normalization (x y : ℝ) :
    (x < 2 * π → normalizeAngle x = x) ∧
    (2 * π ≤ y → normalizeAngle y = pyRadians y) := by
  constructor
  · intro h
    unfold normalizeAngle
    rw [if_pos h]
  · intro h
    unfold normalizeAngle
    rw [if_neg (not_lt.mpr h)]

/-- Witness for C10 at the concrete angles 1 rad and 7 "degrees". -/
theorem C10_witness :
    normalizeAngle 1 = 1 ∧ normalizeAngle 7 = pyRadians 7 := by
  constructor
  · exact (C10_angle_normalization 1 7).1 (by have h := Real.pi_gt_three; linarith)
  · exact (C10_angle_normalization 1 7).2 (by have h := Real.pi_lt_d2; norm_num at h; linarith)

/-! ## Claim C8 — constructor validation -/

/-- C8 counterexample: a gear constructed with non-positive module
`m_n = -1` (and tooth count `5`, a genuine `int`) raises nothing — the
constructor returns normally, contradicting the claimed eager
`InvalidConfiguration` check for non-positive module. -/
theorem C8_counterexample :
    (gearInit (-1) (.int 5) (π / 9) 0 0 1 (1 / 4)).isOk = true := by
  unfold gearInit
  rw [if_neg (by simp [zCheckFails, isInstInt, isInstFloat])]
  rfl

/-- C8 amended: the only eager check in `Gear.__init__` is the tooth-count
type test (gear.py:29-30): a non-`int` tooth count raises `TypeError`,
and every `int` tooth count — with any module and angle values —
constructs successfully. -/
theorem C8_amended (m_n alpha_n beta x_n hac cc m_n' alpha_n' beta' x_n' hac' cc' : ℝ)
    (z z' : PyNum) :
    (isInstInt z = false → gearInit m_n z alpha_n beta x_n hac cc = .error .typeError) ∧
    (isInstInt z' = true → (gearInit m_n' z' alpha_n' beta' x_n' hac' cc').isOk = true) := by
  constructor
  · intro h
    have hz : zCheckFails z = true := by
      cases z <;> simp_all [zCheckFails, isInstInt, isInstFloat]
    unfold gearInit
    rw [if_pos hz]
  · intro h
    have hz : zCheckFails z' = false := by
      cases z' <;> simp_all [zCheckFails, isInstInt, isInstFloat]
    unfold gearInit
    rw [if_neg (by simp [hz])]
    rfl

/-- Witness for C8 at a float tooth count `0.5` and an int tooth count `7`. -/
theorem C8_witness :
    gearInit 1 (.float (1 / 2)) 1 0 0 1 1 = .error .typeError ∧
    (gearInit 1 (.int 7) 1 0 0 1 1).isOk = true := by
  have h := C8_amended 1 1 0 0 1 1 1 1 0 0 1 1 (.float (1 / 2)) (.int 7)
  exact ⟨h.1 rfl, h.2 rfl⟩

/-! ## Claim C9 — mutability of the cached solver state `self.t` -/

/-- C9 counterexample: in the thin-fillet branch (`rc < t[2]`: here
`rc = 1/2 < 1 = t[2]`), a `get_profile_points()` call replaces `self.t`
(the construction-time 3-component solution) with the 4-component solution
of the in-method system — `self.t` is not left unchanged. -/
theorem C9_counterexample :
    profileCallUpdatesT (1 / 2) [2, 2, 2, 2] [1, 1, 1] ≠ [1, 1, 1] := by
  have h : ¬ (([1, 1, 1] : List ℝ).getD 2 0 ≤ 1 / 2) := by
    simp [List.getD]
    norm_num
  unfold profileCallUpdatesT
  rw [if_neg h]
  simp

/-- C9 amended: the constructor caches the 3-unknown solution in `self.t`;
`get_profile_points()` leaves `self.t` unchanged in the thick branch
(`rc ≥ t[2]`), but in the thin-fillet branch it solves the 4-unknown
system anew on every call and overwrites `self.t` with that solution. -/
theorem C9_amended (rc rc' : ℝ) (t t' solve4 solve4' : List ℝ) :
    (t.getD 2 0 ≤ rc → profileCallUpdatesT rc solve4 t = t) ∧
    (rc' < t'.getD 2 0 → profileCallUpdatesT rc' solve4' t' = solve4') := by
  constructor
  · intro h
    unfold profileCallUpdatesT
    rw [if_pos h]
  · intro h
    unfold profileCallUpdatesT
    rw [if_neg (not_le.mpr h)]

/-- Witness for C9: a thick-branch call (`rc = 2 ≥ 1`) preserves `self.t`;
a thin-branch call (`rc = 1/2 < 1`) stores the new solution. -/
theorem C9_witness :
    profileCallUpdatesT 2 [9, 9, 9, 9] [1, 1, 1] = [1, 1, 1] ∧
    profileCallUpdatesT (1 / 2) [2, 2, 2, 2] [1, 1, 1] = [2, 2, 2, 2] := by
  have h := C9_amended 2 (1 / 2) [1, 1, 1] [1, 1, 1] [9, 9, 9, 9] [2, 2, 2, 2]
  constructor
  · exact h.1 (by norm_num [List.getD])
  · exact h.2 (by norm_num [List.getD])

/-! ## Claim C3 — free variable `outer_diam` in `InternalGear.generate_mesh` -/

/-- C3: with no module-global `outer_diam` defined, both topology branches
of `InternalGear.generate_mesh` fail with `NameError` before any mesh is
produced (the instance field `self.outer_diam` is never consulted). -/
theorem C3_outer_diam_nameError (selfOuterDiam rc t2 r_f r_a : ℝ)
    (thickRest thinRest : ℝ → List Pt2) :
    internalGenerateMesh none selfOuterDiam rc t2 r_f r_a thickRest thinRest
      = .error .nameError := by
  unfold internalGenerateMesh
  split <;> rfl

/-! ## Claim C4 — ordering of the derived radii -/

/-- The spec's own concrete scenario (§8): `m_n = 2`, `z = 20`,
`alpha_n = 20° = π/9`, `beta = 0`, `x_n = 0`, `hac = 1`, `cc = 0.25`. -/
noncomputable def specScenario : Params :=
  { m_n := 2, z := 20, alpha_n := π / 9, beta := 0, x_n := 0, hac := 1, cc := 1 / 4 }

theorem specScenario_alpha_t : specScenario.alpha_t = π / 9 := by
  have h1 : -(π / 2) < π / 9 := by have h := Real.pi_pos; linarith
  have h2 : π / 9 < π / 2 := by have h := Real.pi_pos; linarith
  simp [Params.alpha_t, specScenario, Real.cos_zero, Real.arctan_tan h1 h2]

/-- C4 counterexample: at the spec's own sample configuration the root
radius `r_f = 17.5` lies strictly below the base radius
`r_b = 20·cos(π/9) > 20·(7/8)`, so `r_b ≤ r_f` fails. -/
theorem C4_counterexample : specScenario.ext_r_f < specScenario.r_b := by
  have hd : specScenario.d = 40 := by
    simp [Params.d, Params.m_t, specScenario, Real.cos_zero]
    norm_num
  have hcos : (7 : ℝ) / 8 < cos (π / 9) := by
    have hb := @Real.one_sub_sq_div_two_le_cos (π / 9)
    have hlt := Real.pi_lt_d2
    have hgt := Real.pi_gt_three
    norm_num at hlt
    nlinarith
  have hrf : specScenario.ext_r_f = 35 / 2 := by
    rw [Params.ext_r_f, hd]
    simp [Params.x_t, specScenario, Real.cos_zero]
    norm_num
  have hrb : specScenario.r_b = 20 * cos (π / 9) := by
    rw [Params.r_b, hd, specScenario_alpha_t]
    ring
  rw [hrf, hrb]
  linarith

/-- C4 amended: with the sign conditions every valid configuration
satisfies (the claim's `r_b ≤ r_f` is dropped — it fails at the spec's own
scenario, see the counterexample): externally `r_b ≤ r` and
`r_f ≤ r ≤ r_a`; internally `r_a ≤ r ≤ r_f`. -/
theorem C4_amended (g g' : Params)
    (hm : 0 < g.m_n) (hcb : 0 < cos g.beta)
    (hrf : 0 ≤ g.hac + g.cc - g.x_t) (hra : 0 ≤ g.hac + g.x_t)
    (hm' : 0 < g'.m_n) (hcb' : 0 < cos g'.beta)
    (hra' : 0 ≤ g'.hac - g'.x_n) (hrf' : 0 ≤ g'.hac + g'.cc + g'.x_n) :
    (g.r_b ≤ g.r ∧ g.ext_r_f ≤ g.r ∧ g.r ≤ g.ext_r_a) ∧
    (g'.int_r_a ≤ g'.r ∧ g'.r ≤ g'.int_r_f) := by
  have hd : 0 ≤ g.d := by
    rw [Params.d, Params.m_t]
    positivity
  have hd' : 0 ≤ g'.d := by
    rw [Params.d, Params.m_t]
    positivity
  refine ⟨⟨?_, ?_, ?_⟩, ?_, ?_⟩
  · rw [Params.r_b, Params.r]
    have hc1 := Real.cos_le_one g.alpha_t
    nlinarith
  · rw [Params.ext_r_f, Params.r]
    nlinarith [mul_nonneg hm.le hrf]
  · rw [Params.ext_r_a, Params.r]
    nlinarith [mul_nonneg hm.le hra]
  · rw [Params.int_r_a, Params.r]
    nlinarith [mul_nonneg hm'.le hra']
  · rw [Params.int_r_f, Params.r]
    nlinarith [mul_nonneg hm'.le hrf']

/-- Witness for C4 at the spec scenario (external) and a standard
internal gear (`m_n = 1`, `z = 60`, `x_n = 0`, `hac = 1`, `cc = 0.25`). -/
theorem C4_witness :
    (specScenario.r_b ≤ specScenario.r ∧
      specScenario.ext_r_f ≤ specScenario.r ∧ specScenario.r ≤ specScenario.ext_r_a) ∧
    ((⟨1, 60, π / 9, 0, 0, 1, 1 / 4⟩ : Params).int_r_a ≤ (⟨1, 60, π / 9, 0, 0, 1, 1 / 4⟩ : Params).r ∧
      (⟨1, 60, π / 9, 0, 0, 1, 1 / 4⟩ : Params).r ≤ (⟨1, 60, π / 9, 0, 0, 1, 1 / 4⟩ : Params).int_r_f) := by
  have hxt : specScenario.x_t = 0 := by
    simp [Params.x_t, specScenario]
  have hxt' : (⟨1, 60, π / 9, 0, 0, 1, 1 / 4⟩ : Params).x_t = 0 := by
    simp [Params.x_t]
  exact C4_amended specScenario ⟨1, 60, π / 9, 0, 0, 1, 1 / 4⟩
    (by norm_num [specScenario]) (by norm_num [specScenario, Real.cos_zero])
    (by rw [hxt]; norm_num [specScenario]) (by rw [hxt]; norm_num [specScenario])
    (by norm_num) (by norm_num [Real.cos_zero])
    (by norm_num) (by norm_num)

/-! ## Claim C5 — mirror symmetry of the profile point sequence -/

/-- Sampled half profile used in the C5 counterexample and witnesses:
two transition samples (`n2 = 1`) and one involute sample (`n1 = 1`);
like every actual half profile, its x-coordinates vary along the half. -/
def cexTrans : List Pt2 := [(-1, 5), (-3, 6)]

/-- Involute part of the sample half profile. -/
def cexInv : List Pt2 := [(-2, 7)]

/-- C5 counterexample: for the external profile the claimed index relation
`point[n-1-i].x = -point[i].x ∧ point[n-1-i].y = point[i].y` (with `n` the
half-profile length, here `3`) fails at `i = 0`, because gear.py:226-227
append the mirrored half in the *same* order instead of reversing it. -/
theorem C5_counterexample :
    ¬ (∀ i < 3, ((externalProfilePoints cexTrans cexInv).getD (3 - 1 - i) (0, 0)).1
          = -(((externalProfilePoints cexTrans cexInv).getD i (0, 0)).1) ∧
        ((externalProfilePoints cexTrans cexInv).getD (3 - 1 - i) (0, 0)).2
          = ((externalProfilePoints cexTrans cexInv).getD i (0, 0)).2) := by
  intro h
  have h0 := (h 0 (by norm_num)).1
  simp [externalProfilePoints, cexTrans, cexInv, mirrorPt, List.getD] at h0
  norm_num at h0

/-- C5 amended: the mirror symmetry holds with the indexing the code
actually produces — externally the second half repeats the first half's
order (`point[n+i] = mirror(point[i])`, `n` the half length); internally
the full sequence is palindromically mirror-symmetric
(`point[N-1-j] = mirror(point[j])` with `N = 2·L+1`). -/
theorem C5_amended (trans inv : List Pt2) (i : ℕ) (hi : i < (trans ++ inv).length)
    (first : List Pt2) (midY : ℝ) (j : ℕ) (hj : j < 2 * first.length + 1) :
    (externalProfilePoints trans inv).getD ((trans ++ inv).length + i) (0, 0)
      = mirrorPt ((externalProfilePoints trans inv).getD i (0, 0)) ∧
    (internalProfilePoints first midY).getD (2 * first.length - j) (0, 0)
      = mirrorPt ((internalProfilePoints first midY).getD j (0, 0)) := by
  constructor
  · rw [externalProfilePoints_getD_mirror trans inv i hi,
      externalProfilePoints_getD_left trans inv i hi]
  · rcases Nat.lt_trichotomy j first.length with hlt | heq | hgt
    · have h1 : first.length < 2 * first.length - j := by omega
      have h2 : 2 * first.length - j < 2 * first.length + 1 := by omega
      rw [internalProfilePoints_getD_tail first midY _ h1 h2,
        internalProfilePoints_getD_first first midY j hlt]
      have hidx : 2 * first.length - (2 * first.length - j) = j := by omega
      rw [hidx]
    · subst heq
      have : 2 * first.length - first.length = first.length := by omega
      rw [this, internalProfilePoints_getD_mid]
      simp [mirrorPt]
    · have h1 : 2 * first.length - j < first.length := by omega
      rw [internalProfilePoints_getD_first first midY _ h1,
        internalProfilePoints_getD_tail first midY j hgt (by omega),
        mirrorPt_mirrorPt]

/-- Witness for C5 at the concrete sample profile (external, `i = 0`) and a
concrete internal profile (`L = 2`, `j = 4`). -/
theorem C5_witness :
    (externalProfilePoints cexTrans cexInv).getD 3 (0, 0)
      = mirrorPt ((externalProfilePoints cexTrans cexInv).getD 0 (0, 0)) ∧
    (internalProfilePoints [(-1, 5), (-2, 7)] 9).getD 0 (0, 0)
      = mirrorPt ((internalProfilePoints [(-1, 5), (-2, 7)] 9).getD 4 (0, 0)) := by
  have h := C5_amended cexTrans cexInv 0 (by simp [cexTrans, cexInv])
    [(-1, 5), (-2, 7)] 9 4 (by simp)
  exact ⟨h.1, h.2⟩

/-! ## Claim C7 — topology-branch selection in `ExternalGear.generate_mesh` -/

/-- C7: the reduced (degenerate root-fillet) branch is selected iff the
angular position of the first transition-curve endpoint of the mirrored
half (`kp_1 = mirror(points[0])`), rotated by one tooth pitch `2π/z`,
differs from the angular position of its mirror counterpart
(`kp_4 = points[0]`) by strictly less than `1e-12` radians. -/
theorem C7_branch_selection (z n1 n2 : ℕ) (trans inv : List Pt2)
    (ht : trans.length = n2 + 1) (hinv : inv.length = n1) :
    (extReducedBranchSelected z n1 n2 (externalProfilePoints trans inv) ↔
      extDeltaAngle z (mirrorPt (trans.getD 0 (0, 0))) (trans.getD 0 (0, 0)) < 1e-12) := by
  have hL : (trans ++ inv).length = n1 + n2 + 1 := by
    simp [ht, hinv]
    omega
  have h0 : 0 < (trans ++ inv).length := by omega
  have hhead : (trans ++ inv).getD 0 (0, 0) = trans.getD 0 (0, 0) := by
    rw [List.getD_eq_getElem?_getD, List.getElem?_append_left (by omega),
      ← List.getD_eq_getElem?_getD]
  unfold extReducedBranchSelected
  rw [show n1 + n2 + 1 = (trans ++ inv).length + 0 by omega,
    externalProfilePoints_getD_mirror trans inv 0 h0,
    externalProfilePoints_getD_left trans inv 0 h0, hhead]

/-- Witness for C7 at the sample half profile (`z = 20`). -/
theorem C7_witness :
    extReducedBranchSelected 20 1 1 (externalProfilePoints cexTrans cexInv) ↔
      extDeltaAngle 20 (mirrorPt (cexTrans.getD 0 (0, 0))) (cexTrans.getD 0 (0, 0)) < 1e-12 :=
  C7_branch_selection 20 1 1 cexTrans cexInv (by simp [cexTrans]) (by simp [cexInv])

/-! ## RotationalStitcher: primitive numpy operations

`trans_matrix` is an integer array of length `len(tooth_node)`, modelled as
a function `ℕ → ℕ`; the updates below mirror the numpy statements. -/

/-- A quad cell: its 4 node indices (numpy row of `cell`). -/
abbrev Cell := ℕ × ℕ × ℕ × ℕ

/-- Fancy indexing `trans_matrix[cell]` applied to one row. -/
def mapCell (f : ℕ → ℕ) (c : Cell) : Cell := (f c.1, f c.2.1, f c.2.2.1, f c.2.2.2)

/-- `a[i] = v`. -/
def setIdx (f : ℕ → ℕ) (i v : ℕ) : ℕ → ℕ := fun j => if j = i then v else f j

/-- `a[lo:hi] += d`. -/
def addRange (f : ℕ → ℕ) (lo hi d : ℕ) : ℕ → ℕ :=
  fun j => if lo ≤ j ∧ j < hi then f j + d else f j

/-- `a[lo:hi] = a[src:src+(hi-lo)]` (numpy evaluates the right-hand side
before writing; the two ranges are disjoint in every use below). -/
def copyRange (f : ℕ → ℕ) (lo hi src : ℕ) : ℕ → ℕ :=
  fun j => if lo ≤ j ∧ j < hi then f (src + (j - lo)) else f j

/-- `a[lo:hi] = g(0), g(1), …` — assignment of values taken from another
array (used for reads from `origin_trans_matrix`, which stays the identity). -/
def setRangeVals (f : ℕ → ℕ) (lo hi : ℕ) (g : ℕ → ℕ) : ℕ → ℕ :=
  fun j => if lo ≤ j ∧ j < hi then g (j - lo) else f j

/-- Python slice `xs[a:b]` (with `b ≤ len(xs)` clamping as in Python). -/
def pySlice (xs : List α) (a b : ℕ) : List α := (xs.drop a).take (b - a)

/-- Entry-wise bound on a cell's node indices. -/
def cellLt (c : Cell) (b : ℕ) : Prop :=
  c.1 < b ∧ c.2.1 < b ∧ c.2.2.1 < b ∧ c.2.2.2 < b

instance (c : Cell) (b : ℕ) : Decidable (cellLt c b) := by
  unfold cellLt
  infer_instance

theorem setIdx_self (f : ℕ → ℕ) (i v : ℕ) : setIdx f i v i = v := by simp [setIdx]

theorem setIdx_other (f : ℕ → ℕ) (i v j : ℕ) (h : j ≠ i) : setIdx f i v j = f j := by
  simp [setIdx, h]

theorem addRange_mem (f : ℕ → ℕ) (lo hi d j : ℕ) (h1 : lo ≤ j) (h2 : j < hi) :
    addRange f lo hi d j = f j + d := by
  simp [addRange, h1, h2]

theorem addRange_notMem (f : ℕ → ℕ) (lo hi d j : ℕ) (h : ¬(lo ≤ j ∧ j < hi)) :
    addRange f lo hi d j = f j := by
  unfold addRange
  rw [if_neg h]

theorem copyRange_mem (f : ℕ → ℕ) (lo hi src j : ℕ) (h1 : lo ≤ j) (h2 : j < hi) :
    copyRange f lo hi src j = f (src + (j - lo)) := by
  simp [copyRange, h1, h2]

theorem copyRange_notMem (f : ℕ → ℕ) (lo hi src j : ℕ) (h : ¬(lo ≤ j ∧ j < hi)) :
    copyRange f lo hi src j = f j := by
  unfold copyRange
  rw [if_neg h]

theorem setRangeVals_mem (f : ℕ → ℕ) (lo hi : ℕ) (g : ℕ → ℕ) (j : ℕ)
    (h1 : lo ≤ j) (h2 : j < hi) : setRangeVals f lo hi g j = g (j - lo) := by
  simp [setRangeVals, h1, h2]

theorem setRangeVals_notMem (f : ℕ → ℕ) (lo hi : ℕ) (g : ℕ → ℕ) (j : ℕ)
    (h : ¬(lo ≤ j ∧ j < hi)) : setRangeVals f lo hi g j = f j := by
  unfold setRangeVals
  rw [if_neg h]

/-- Length of a `flatMap` over `List.range` whose chunks all have length `m`. -/
theorem length_flatMap_range (f : ℕ → List α) (m : ℕ) (h : ∀ i, (f i).length = m) :
    ∀ k, ((List.range k).flatMap f).length = k * m := by
  intro k
  induction k with
  | zero => simp
  | succ k IH =>
    rw [List.range_succ, List.flatMap_append, List.length_append, IH]
    simp [h]
    ring

/-! ## RotationalStitcher, external gear, reduced branch (gear.py:376-446)

In this branch `len(key_points) = 12`; `single_node_num = N - (n3+1)` with
`N = len(tooth_node)` (gear.py:376); the left-boundary edge nodes occupy
`[12, 12+n3-1)` and the right-boundary ones `[R, R+n3-1)` with
`R = 12 + 2*(n3+n1+n2-3)` (gear.py:390-392). -/

namespace ExtRed

/-- `single_node_num` (gear.py:376). -/
def S (n3 N : ℕ) : ℕ := N - (n3 + 1)

/-- `len(key_points) + 2*(n3+n1+n2-3)`: start of the right-boundary
edge-node block. -/
def R (n1 n2 n3 : ℕ) : ℕ := 12 + 2 * (n1 + n2 + n3 - 3)

/-- One non-final copy's `trans_matrix` update.  With `d = S + n3 - 1` this
is the left tooth (gear.py:387-395), with `d = S` a middle tooth
(gear.py:409-417): `trans_matrix[0] = trans_matrix[11]`,
`trans_matrix[1] = trans_matrix[4]`,
`trans_matrix[12:12+n3-1] = trans_matrix[R:R+n3-1]`,
`trans_matrix[2:12] += d`, `trans_matrix[12+n3-1:] += S`. -/
def phaseStep (n1 n2 n3 N d : ℕ) (tm : ℕ → ℕ) : ℕ → ℕ :=
  let t1 := setIdx tm 0 (tm 11)
  let t2 := setIdx t1 1 (t1 4)
  let t3 := copyRange t2 12 (12 + n3 - 1) (R n1 n2 n3)
  let t4 := addRange t3 2 12 d
  addRange t4 (12 + n3 - 1) N (S n3 N)

/-- The final (right) tooth's `trans_matrix` update (gear.py:427-440),
including the closing relink onto copy 0's boundary:
`trans_matrix[0] = trans_matrix[11]`, `trans_matrix[1] = trans_matrix[4]`,
`trans_matrix[11] = origin_trans_matrix[0]`,
`trans_matrix[4] = origin_trans_matrix[1]`,
`trans_matrix[12:12+n3-1] = trans_matrix[R:R+n3-1]`,
`trans_matrix[R:R+n3-1] = origin_trans_matrix[12:12+n3-1]`,
`trans_matrix[2:4] += S`, `trans_matrix[5:11] += S - 1`,
`trans_matrix[12+n3-1:R] += S - 2`,
`trans_matrix[R+n3-1:] += S - 2 - (n3-1)`. -/
def phaseFinal (n1 n2 n3 N : ℕ) (tm : ℕ → ℕ) : ℕ → ℕ :=
  let t1 := setIdx tm 0 (tm 11)
  let t2 := setIdx t1 1 (t1 4)
  let t3 := setIdx t2 11 0
  let t4 := setIdx t3 4 1
  let t5 := copyRange t4 12 (12 + n3 - 1) (R n1 n2 n3)
  let t6 := setRangeVals t5 (R n1 n2 n3) (R n1 n2 n3 + n3 - 1) (fun i => 12 + i)
  let t7 := addRange t6 2 4 (S n3 N)
  let t8 := addRange t7 5 11 (S n3 N - 1)
  let t9 := addRange t8 (12 + n3 - 1) (R n1 n2 n3) (S n3 N - 2)
  addRange t9 (R n1 n2 n3 + n3 - 1) N (S n3 N - 2 - (n3 - 1))

/-- `temp_node` index selection (gear.py:377-378):
`tooth_node[2:12]` followed by `tooth_node[12+n3-1:]`. -/
def temp (n3 : ℕ) (T : List α) : List α :=
  pySlice T 2 12 ++ T.drop (12 + n3 - 1)

/-- `temp_node_last` index selection (gear.py:379-382). -/
def tempLast (n1 n2 n3 : ℕ) (T : List α) : List α :=
  pySlice T 2 4 ++ pySlice T 5 11 ++ pySlice T (12 + n3 - 1) (R n1 n2 n3)
    ++ T.drop (R n1 n2 n3 + n3 - 1)

/-- `trans_matrix` as updated for copy `k+1` (copy 1 = left tooth, then
`k` middle-tooth updates). -/
def tmIter (n1 n2 n3 N k : ℕ) : ℕ → ℕ :=
  (phaseStep n1 n2 n3 N (S n3 N))^[k]
    (phaseStep n1 n2 n3 N (S n3 N + n3 - 1) id)

/-- `trans_matrix` as updated for the final copy `z-1` (after the left
tooth and `z-3` middle teeth). -/
def tmFinal (n1 n2 n3 N z : ℕ) : ℕ → ℕ :=
  phaseFinal n1 n2 n3 N (tmIter n1 n2 n3 N (z - 3))

/-- The assembled cell array: the original tooth's cells followed by one
remapped copy per further tooth (gear.py:399-402, 419-421, 442-444). -/
def cells (n1 n2 n3 N z : ℕ) (origin : List Cell) : List Cell :=
  origin ++ origin.map (mapCell (tmIter n1 n2 n3 N 0))
    ++ (List.range (z - 3)).flatMap
        (fun i => origin.map (mapCell (tmIter n1 n2 n3 N (i + 1))))
    ++ origin.map (mapCell (tmFinal n1 n2 n3 N z))

/-- The assembled node array: the original tooth's nodes, the rotated
`temp_node` for copies `1 … z-2` (`rot_phi[i] = i·2π/z`), and the rotated
`temp_node_last` for copy `z-1` (gear.py:397-401, 405-407, 423-425). -/
def nodes (n1 n2 n3 z : ℕ) (rotFn : ℕ → α → α) (T : List α) : List α :=
  T ++ (temp n3 T).map (rotFn 1)
    ++ (List.range (z - 3)).flatMap (fun i => (temp n3 T).map (rotFn (i + 2)))
    ++ (tempLast n1 n2 n3 T).map (rotFn (z - 1))

/-! ### Pointwise evaluation of the two phase functions -/

theorem phaseStep_at0 (n1 n2 n3 N d : ℕ) (tm : ℕ → ℕ) :
    phaseStep n1 n2 n3 N d tm 0 = tm 11 := by
  simp only [phaseStep]
  rw [addRange_notMem _ _ _ _ _ (by omega), addRange_notMem _ _ _ _ _ (by omega),
    copyRange_notMem _ _ _ _ _ (by omega), setIdx_other _ _ _ _ (by omega), setIdx_self]

theorem phaseStep_at1 (n1 n2 n3 N d : ℕ) (tm : ℕ → ℕ) :
    phaseStep n1 n2 n3 N d tm 1 = tm 4 := by
  simp only [phaseStep]
  rw [addRange_notMem _ _ _ _ _ (by omega), addRange_notMem _ _ _ _ _ (by omega),
    copyRange_notMem _ _ _ _ _ (by omega), setIdx_self, setIdx_other _ _ _ _ (by omega)]

theorem phaseStep_atA (n1 n2 n3 N d : ℕ) (tm : ℕ → ℕ) (j : ℕ)
    (h3 : 1 ≤ n3) (hj2 : 2 ≤ j) (hj12 : j < 12) :
    phaseStep n1 n2 n3 N d tm j = tm j + d := by
  simp only [phaseStep]
  rw [addRange_notMem _ _ _ _ _ (by omega), addRange_mem _ _ _ _ _ (by omega) (by omega),
    copyRange_notMem _ _ _ _ _ (by omega), setIdx_other _ _ _ _ (by omega),
    setIdx_other _ _ _ _ (by omega)]

theorem phaseStep_atL (n1 n2 n3 N d : ℕ) (tm : ℕ → ℕ) (j : ℕ)
    (hj1 : 12 ≤ j) (hj2 : j < 12 + n3 - 1) :
    phaseStep n1 n2 n3 N d tm j = tm (R n1 n2 n3 + (j - 12)) := by
  have hR : 12 ≤ R n1 n2 n3 := by simp only [R]; omega
  simp only [phaseStep]
  rw [addRange_notMem _ _ _ _ _ (by omega), addRange_notMem _ _ _ _ _ (by omega),
    copyRange_mem _ _ _ _ _ (by omega) (by omega),
    setIdx_other _ _ _ _ (by omega), setIdx_other _ _ _ _ (by omega)]

theorem phaseStep_atB (n1 n2 n3 N d : ℕ) (tm : ℕ → ℕ) (j : ℕ)
    (h3 : 1 ≤ n3) (hj1 : 12 + n3 - 1 ≤ j) (hjN : j < N) :
    phaseStep n1 n2 n3 N d tm j = tm j + S n3 N := by
  simp only [phaseStep]
  rw [addRange_mem _ _ _ _ _ (by omega) (by omega),
    addRange_notMem _ _ _ _ _ (by omega), copyRange_notMem _ _ _ _ _ (by omega),
    setIdx_other _ _ _ _ (by omega), setIdx_other _ _ _ _ (by omega)]

theorem phaseFinal_at0 (n1 n2 n3 N : ℕ) (tm : ℕ → ℕ) :
    phaseFinal n1 n2 n3 N tm 0 = tm 11 := by
  have hR : 12 ≤ R n1 n2 n3 := by simp only [R]; omega
  simp only [phaseFinal]
  rw [addRange_notMem _ _ _ _ _ (by omega),
    addRange_notMem _ _ _ _ _ (by omega), addRange_notMem _ _ _ _ _ (by omega),
    addRange_notMem _ _ _ _ _ (by omega),
    setRangeVals_notMem _ _ _ _ _ (by omega),
    copyRange_notMem _ _ _ _ _ (by omega), setIdx_other _ _ _ _ (by omega),
    setIdx_other _ _ _ _ (by omega), setIdx_other _ _ _ _ (by omega), setIdx_self]

theorem phaseFinal_at1 (n1 n2 n3 N : ℕ) (tm : ℕ → ℕ) :
    phaseFinal n1 n2 n3 N tm 1 = tm 4 := by
  have hR : 12 ≤ R n1 n2 n3 := by simp only [R]; omega
  simp only [phaseFinal]
  rw [addRange_notMem _ _ _ _ _ (by omega),
    addRange_notMem _ _ _ _ _ (by omega), addRange_notMem _ _ _ _ _ (by omega),
    addRange_notMem _ _ _ _ _ (by omega),
    setRangeVals_notMem _ _ _ _ _ (by omega),
    copyRange_notMem _ _ _ _ _ (by omega), setIdx_other _ _ _ _ (by omega),
    setIdx_other _ _ _ _ (by omega), setIdx_self, setIdx_other _ _ _ _ (by omega)]

theorem phaseFinal_at23 (n1 n2 n3 N : ℕ) (tm : ℕ → ℕ) (j : ℕ)
    (hj2 : 2 ≤ j) (hj4 : j < 4) :
    phaseFinal n1 n2 n3 N tm j = tm j + S n3 N := by
  have hR : 12 ≤ R n1 n2 n3 := by simp only [R]; omega
  simp only [phaseFinal]
  rw [addRange_notMem _ _ _ _ _ (by omega),
    addRange_notMem _ _ _ _ _ (by omega), addRange_notMem _ _ _ _ _ (by omega),
    addRange_mem _ _ _ _ _ (by omega) (by omega),
    setRangeVals_notMem _ _ _ _ _ (by omega),
    copyRange_notMem _ _ _ _ _ (by omega), setIdx_other _ _ _ _ (by omega),
    setIdx_other _ _ _ _ (by omega), setIdx_other _ _ _ _ (by omega),
    setIdx_other _ _ _ _ (by omega)]

theorem phaseFinal_at4 (n1 n2 n3 N : ℕ) (tm : ℕ → ℕ) :
    phaseFinal n1 n2 n3 N tm 4 = 1 := by
  have hR : 12 ≤ R n1 n2 n3 := by simp only [R]; omega
  simp only [phaseFinal]
  rw [addRange_notMem _ _ _ _ _ (by omega),
    addRange_notMem _ _ _ _ _ (by omega), addRange_notMem _ _ _ _ _ (by omega),
    addRange_notMem _ _ _ _ _ (by omega),
    setRangeVals_notMem _ _ _ _ _ (by omega),
    copyRange_notMem _ _ _ _ _ (by omega), setIdx_self]

theorem phaseFinal_at510 (n1 n2 n3 N : ℕ) (tm : ℕ → ℕ) (j : ℕ)
    (hj5 : 5 ≤ j) (hj11 : j < 11) :
    phaseFinal n1 n2 n3 N tm j = tm j + (S n3 N - 1) := by
  have hR : 12 ≤ R n1 n2 n3 := by simp only [R]; omega
  simp only [phaseFinal]
  rw [addRange_notMem _ _ _ _ _ (by omega),
    addRange_notMem _ _ _ _ _ (by omega), addRange_mem _ _ _ _ _ (by omega) (by omega),
    addRange_notMem _ _ _ _ _ (by omega),
    setRangeVals_notMem _ _ _ _ _ (by omega),
    copyRange_notMem _ _ _ _ _ (by omega), setIdx_other _ _ _ _ (by omega),
    setIdx_other _ _ _ _ (by omega), setIdx_other _ _ _ _ (by omega),
    setIdx_other _ _ _ _ (by omega)]

theorem phaseFinal_at11 (n1 n2 n3 N : ℕ) (tm : ℕ → ℕ) (h3 : 1 ≤ n3) :
    phaseFinal n1 n2 n3 N tm 11 = 0 := by
  have hR : 12 ≤ R n1 n2 n3 := by simp only [R]; omega
  simp only [phaseFinal]
  rw [addRange_notMem _ _ _ _ _ (by omega),
    addRange_notMem _ _ _ _ _ (by omega), addRange_notMem _ _ _ _ _ (by omega),
    addRange_notMem _ _ _ _ _ (by omega),
    setRangeVals_notMem _ _ _ _ _ (by omega),
    copyRange_notMem _ _ _ _ _ (by omega), setIdx_other _ _ _ _ (by omega), setIdx_self]

theorem phaseFinal_atL (n1 n2 n3 N : ℕ) (tm : ℕ → ℕ) (j : ℕ)
    (h1 : 1 ≤ n1) (h2 : 1 ≤ n2) (h3 : 1 ≤ n3) (hj1 : 12 ≤ j) (hj2 : j < 12 + n3 - 1) :
    phaseFinal n1 n2 n3 N tm j = tm (R n1 n2 n3 + (j - 12)) := by
  have hR : 12 + n3 - 1 ≤ R n1 n2 n3 := by simp only [R]; omega
  simp only [phaseFinal]
  rw [addRange_notMem _ _ _ _ _ (by omega),
    addRange_notMem _ _ _ _ _ (by omega), addRange_notMem _ _ _ _ _ (by omega),
    addRange_notMem _ _ _ _ _ (by omega),
    setRangeVals_notMem _ _ _ _ _ (by omega),
    copyRange_mem _ _ _ _ _ (by omega) (by omega),
    setIdx_other _ _ _ _ (by omega), setIdx_other _ _ _ _ (by omega),
    setIdx_other _ _ _ _ (by omega), setIdx_other _ _ _ _ (by omega)]

theorem phaseFinal_atM (n1 n2 n3 N : ℕ) (tm : ℕ → ℕ) (j : ℕ)
    (h3 : 1 ≤ n3) (hj1 : 12 + n3 - 1 ≤ j) (hj2 : j < R n1 n2 n3) :
    phaseFinal n1 n2 n3 N tm j = tm j + (S n3 N - 2) := by
  simp only [phaseFinal]
  rw [addRange_notMem _ _ _ _ _ (by omega),
    addRange_mem _ _ _ _ _ (by omega) (by omega),
    addRange_notMem _ _ _ _ _ (by omega), addRange_notMem _ _ _ _ _ (by omega),
    setRangeVals_notMem _ _ _ _ _ (by omega),
    copyRange_notMem _ _ _ _ _ (by omega), setIdx_other _ _ _ _ (by omega),
    setIdx_other _ _ _ _ (by omega), setIdx_other _ _ _ _ (by omega),
    setIdx_other _ _ _ _ (by omega)]

theorem phaseFinal_atRB (n1 n2 n3 N : ℕ) (tm : ℕ → ℕ) (j : ℕ)
    (hj1 : R n1 n2 n3 ≤ j) (hj2 : j < R n1 n2 n3 + n3 - 1) :
    phaseFinal n1 n2 n3 N tm j = 12 + (j - R n1 n2 n3) := by
  have hR : 12 ≤ R n1 n2 n3 := by simp only [R]; omega
  simp only [phaseFinal]
  rw [addRange_notMem _ _ _ _ _ (by omega),
    addRange_notMem _ _ _ _ _ (by omega), addRange_notMem _ _ _ _ _ (by omega),
    addRange_notMem _ _ _ _ _ (by omega),
    setRangeVals_mem _ _ _ _ _ (by omega) (by omega)]

theorem phaseFinal_atE (n1 n2 n3 N : ℕ) (tm : ℕ → ℕ) (j : ℕ)
    (h3 : 1 ≤ n3) (hj1 : R n1 n2 n3 + n3 - 1 ≤ j) (hjN : j < N) :
    phaseFinal n1 n2 n3 N tm j = tm j + (S n3 N - 2 - (n3 - 1)) := by
  have hR : 12 ≤ R n1 n2 n3 := by simp only [R]; omega
  simp only [phaseFinal]
  rw [addRange_mem _ _ _ _ _ (by omega) (by omega),
    addRange_notMem _ _ _ _ _ (by omega),
    addRange_notMem _ _ _ _ _ (by omega), addRange_notMem _ _ _ _ _ (by omega),
    setRangeVals_notMem _ _ _ _ _ (by omega),
    copyRange_notMem _ _ _ _ _ (by omega), setIdx_other _ _ _ _ (by omega),
    setIdx_other _ _ _ _ (by omega), setIdx_other _ _ _ _ (by omega),
    setIdx_other _ _ _ _ (by omega)]

/-! ### Closed form of the remap across the copies -/

/-- Closed form (proved in `tmIter_eq`) of the remap after the update for
copy `k+1`: the two duplicated corner vertices point into the previous
copy, the left-boundary edge nodes point at the previous copy's
right-boundary block, and all other indices are shifted into the block of
nodes appended for this copy. -/
def tmIterSpec (n1 n2 n3 N k j : ℕ) : ℕ :=
  if j = 0 then (if k = 0 then 11 else 11 + k * S n3 N + (n3 - 1))
  else if j = 1 then (if k = 0 then 4 else 4 + k * S n3 N + (n3 - 1))
  else if j < 12 then j + (k + 1) * S n3 N + (n3 - 1)
  else if j < 12 + n3 - 1 then
    (if k = 0 then R n1 n2 n3 + (j - 12) else R n1 n2 n3 + (j - 12) + k * S n3 N)
  else j + (k + 1) * S n3 N

theorem tmIter_eq (n1 n2 n3 N : ℕ) (h1 : 1 ≤ n1) (h2 : 1 ≤ n2) (h3 : 1 ≤ n3)
    (hN : R n1 n2 n3 + n3 - 1 ≤ N) :
    ∀ k, ∀ j < N, tmIter n1 n2 n3 N k j = tmIterSpec n1 n2 n3 N k j := by
  have hR12 : 12 + n3 - 1 ≤ R n1 n2 n3 := by simp only [R]; omega
  have hR0 : 12 ≤ R n1 n2 n3 := by omega
  intro k
  induction k with
  | zero =>
    intro j hj
    simp only [tmIter, Function.iterate_zero, id_eq]
    by_cases h0 : j = 0
    · subst h0
      rw [phaseStep_at0]
      simp only [tmIterSpec, id_eq]
      split_ifs <;> try contradiction
      all_goals omega
    by_cases h1' : j = 1
    · subst h1'
      rw [phaseStep_at1]
      simp only [tmIterSpec, id_eq]
      split_ifs <;> try contradiction
      all_goals omega
    by_cases hA : j < 12
    · rw [phaseStep_atA n1 n2 n3 N (S n3 N + n3 - 1) id j h3 (by omega) hA]
      simp only [tmIterSpec, id_eq]
      split_ifs <;> try contradiction
      all_goals omega
    by_cases hL : j < 12 + n3 - 1
    · rw [phaseStep_atL n1 n2 n3 N (S n3 N + n3 - 1) id j (by omega) hL]
      simp only [tmIterSpec, id_eq]
      split_ifs <;> try contradiction
      all_goals omega
    · rw [phaseStep_atB n1 n2 n3 N (S n3 N + n3 - 1) id j h3 (by omega) hj]
      simp only [tmIterSpec, id_eq]
      split_ifs <;> try contradiction
      all_goals omega
  | succ k IH =>
    intro j hj
    have hstep : tmIter n1 n2 n3 N (k + 1) j
        = phaseStep n1 n2 n3 N (S n3 N) (tmIter n1 n2 n3 N k) j := by
      simp only [tmIter, Function.iterate_succ_apply']
    rw [hstep]
    have hm1 : (k + 1) * S n3 N = k * S n3 N + S n3 N := by ring
    have hm2 : (k + 1 + 1) * S n3 N = (k + 1) * S n3 N + S n3 N := by ring
    by_cases h0 : j = 0
    · subst h0
      rw [phaseStep_at0, IH 11 (by omega)]
      simp only [tmIterSpec]
      split_ifs <;> try contradiction
      all_goals omega
    by_cases h1' : j = 1
    · subst h1'
      rw [phaseStep_at1, IH 4 (by omega)]
      simp only [tmIterSpec]
      split_ifs <;> try contradiction
      all_goals omega
    by_cases hA : j < 12
    · rw [phaseStep_atA n1 n2 n3 N (S n3 N) (tmIter n1 n2 n3 N k) j h3 (by omega) hA,
        IH j hj]
      simp only [tmIterSpec]
      split_ifs <;> try contradiction
      all_goals omega
    by_cases hL : j < 12 + n3 - 1
    · rw [phaseStep_atL n1 n2 n3 N (S n3 N) (tmIter n1 n2 n3 N k) j (by omega) hL,
        IH (R n1 n2 n3 + (j - 12)) (by omega)]
      simp only [tmIterSpec]
      split_ifs <;> try contradiction
      all_goals omega
    · rw [phaseStep_atB n1 n2 n3 N (S n3 N) (tmIter n1 n2 n3 N k) j h3 (by omega) hj,
        IH j hj]
      simp only [tmIterSpec]
      split_ifs <;> try contradiction
      all_goals omega

/-- Closed form (proved in `tmFinal_eq`) of the remap used for the final
copy, including the closing relink: vertices 4/11 and the right-boundary
edge nodes point back at copy 0's left boundary. -/
def tmFinalSpec (n1 n2 n3 N k j : ℕ) : ℕ :=
  if j = 0 then 11 + (k + 1) * S n3 N + (n3 - 1)
  else if j = 1 then 4 + (k + 1) * S n3 N + (n3 - 1)
  else if j < 4 then j + (k + 1) * S n3 N + (n3 - 1) + S n3 N
  else if j = 4 then 1
  else if j < 11 then j + (k + 1) * S n3 N + (n3 - 1) + (S n3 N - 1)
  else if j = 11 then 0
  else if j < 12 + n3 - 1 then R n1 n2 n3 + (j - 12) + (k + 1) * S n3 N
  else if j < R n1 n2 n3 then j + (k + 1) * S n3 N + (S n3 N - 2)
  else if j < R n1 n2 n3 + n3 - 1 then 12 + (j - R n1 n2 n3)
  else j + (k + 1) * S n3 N + (S n3 N - 2 - (n3 - 1))

theorem tmFinal_eq (n1 n2 n3 N z : ℕ) (h1 : 1 ≤ n1) (h2 : 1 ≤ n2) (h3 : 1 ≤ n3)
    (hN : R n1 n2 n3 + n3 - 1 ≤ N) :
    ∀ j < N, tmFinal n1 n2 n3 N z j = tmFinalSpec n1 n2 n3 N (z - 3) j := by
  have hR12 : 12 + n3 - 1 ≤ R n1 n2 n3 := by simp only [R]; omega
  have hIter := tmIter_eq n1 n2 n3 N h1 h2 h3 hN (z - 3)
  intro j hj
  simp only [tmFinal]
  by_cases h0 : j = 0
  · subst h0
    rw [phaseFinal_at0, hIter 11 (by omega)]
    simp only [tmIterSpec, tmFinalSpec]
    split_ifs <;> try contradiction
    all_goals omega
  by_cases h1' : j = 1
  · subst h1'
    rw [phaseFinal_at1, hIter 4 (by omega)]
    simp only [tmIterSpec, tmFinalSpec]
    split_ifs <;> try contradiction
    all_goals omega
  by_cases h23 : j < 4
  · rw [phaseFinal_at23 n1 n2 n3 N _ j (by omega) h23, hIter j hj]
    simp only [tmIterSpec, tmFinalSpec]
    split_ifs <;> try contradiction
    all_goals omega
  by_cases h4 : j = 4
  · subst h4
    rw [phaseFinal_at4]
    simp only [tmFinalSpec]
    split_ifs <;> try contradiction
    all_goals omega
  by_cases h510 : j < 11
  · rw [phaseFinal_at510 n1 n2 n3 N _ j (by omega) h510, hIter j hj]
    simp only [tmIterSpec, tmFinalSpec]
    split_ifs <;> try contradiction
    all_goals omega
  by_cases h11 : j = 11
  · subst h11
    rw [phaseFinal_at11 n1 n2 n3 N _ h3]
    simp only [tmFinalSpec]
    split_ifs <;> try contradiction
    all_goals omega
  by_cases hL : j < 12 + n3 - 1
  · rw [phaseFinal_atL n1 n2 n3 N _ j h1 h2 h3 (by omega) hL,
      hIter (R n1 n2 n3 + (j - 12)) (by omega)]
    simp only [tmIterSpec, tmFinalSpec]
    split_ifs <;> try contradiction
    all_goals omega
  by_cases hM : j < R n1 n2 n3
  · rw [phaseFinal_atM n1 n2 n3 N _ j h3 (by omega) hM, hIter j hj]
    simp only [tmIterSpec, tmFinalSpec]
    split_ifs <;> try contradiction
    all_goals omega
  by_cases hRB : j < R n1 n2 n3 + n3 - 1
  · rw [phaseFinal_atRB n1 n2 n3 N _ j (by omega) hRB]
    simp only [tmFinalSpec]
    split_ifs <;> try contradiction
    all_goals omega
  · rw [phaseFinal_atE n1 n2 n3 N _ j h3 (by omega) hj, hIter j hj]
    simp only [tmIterSpec, tmFinalSpec]
    split_ifs <;> try contradiction
    all_goals omega

/-! ### Sizes and bounds of the assembled arrays -/

/-- Node count of the assembled full-wheel mesh: the single tooth's `N`
nodes, `S` new nodes for each of the `1 + (z-3)` non-final copies, and
`N - 2*(n3+1)` new nodes for the final copy. -/
def totalNodes (n3 N z : ℕ) : ℕ :=
  N + (1 + (z - 3)) * S n3 N + (N - 2 * (n3 + 1))

theorem tmIter_lt_total (n1 n2 n3 N z : ℕ) (h1 : 1 ≤ n1) (h2 : 1 ≤ n2) (h3 : 1 ≤ n3)
    (hN : R n1 n2 n3 + n3 - 1 ≤ N) (k : ℕ) (hk : k ≤ z - 3) :
    ∀ j < N, tmIter n1 n2 n3 N k j < totalNodes n3 N z := by
  intro j hj
  rw [tmIter_eq n1 n2 n3 N h1 h2 h3 hN k j hj]
  have hRdef : R n1 n2 n3 = 12 + 2 * (n1 + n2 + n3 - 3) := rfl
  have hS : S n3 N = N - (n3 + 1) := rfl
  have hmono : (k + 1) * S n3 N ≤ (1 + (z - 3)) * S n3 N :=
    Nat.mul_le_mul_right _ (by omega)
  have hmono' : k * S n3 N ≤ (k + 1) * S n3 N :=
    Nat.mul_le_mul_right _ (by omega)
  simp only [tmIterSpec, totalNodes]
  split_ifs <;> try contradiction
  all_goals omega

theorem tmFinal_lt_total (n1 n2 n3 N z : ℕ) (h1 : 1 ≤ n1) (h2 : 1 ≤ n2) (h3 : 1 ≤ n3)
    (hN : R n1 n2 n3 + n3 - 1 ≤ N) :
    ∀ j < N, tmFinal n1 n2 n3 N z j < totalNodes n3 N z := by
  intro j hj
  rw [tmFinal_eq n1 n2 n3 N z h1 h2 h3 hN j hj]
  have hRdef : R n1 n2 n3 = 12 + 2 * (n1 + n2 + n3 - 3) := rfl
  have hS : S n3 N = N - (n3 + 1) := rfl
  have heq : (z - 3 + 1) * S n3 N = (1 + (z - 3)) * S n3 N := by ring
  simp only [tmFinalSpec, totalNodes]
  split_ifs <;> try contradiction
  all_goals omega

theorem temp_length (n3 : ℕ) (T : List α) (h3 : 1 ≤ n3) (hT : 12 + n3 - 1 ≤ T.length) :
    (temp n3 T).length = S n3 T.length := by
  simp only [temp, pySlice, List.length_append, List.length_take, List.length_drop, S,
    inf_eq_min, Nat.min_def]
  split_ifs <;> omega

theorem tempLast_length (n1 n2 n3 : ℕ) (T : List α) (h1 : 1 ≤ n1) (h2 : 1 ≤ n2)
    (h3 : 1 ≤ n3) (hT : R n1 n2 n3 + n3 - 1 ≤ T.length) :
    (tempLast n1 n2 n3 T).length = T.length - 2 * (n3 + 1) := by
  have hRdef : R n1 n2 n3 = 12 + 2 * (n1 + n2 + n3 - 3) := rfl
  simp only [tempLast, pySlice, List.length_append, List.length_take, List.length_drop,
    inf_eq_min, Nat.min_def]
  split_ifs <;> omega

theorem nodes_length (n1 n2 n3 z : ℕ) (rotFn : ℕ → α → α) (T : List α)
    (h1 : 1 ≤ n1) (h2 : 1 ≤ n2) (h3 : 1 ≤ n3)
    (hT : R n1 n2 n3 + n3 - 1 ≤ T.length) :
    (nodes n1 n2 n3 z rotFn T).length = totalNodes n3 T.length z := by
  have hmid : ((List.range (z - 3)).flatMap
      (fun i => (temp n3 T).map (rotFn (i + 2)))).length = (z - 3) * (temp n3 T).length := by
    apply length_flatMap_range
    intro i
    simp
  have hRdef : R n1 n2 n3 = 12 + 2 * (n1 + n2 + n3 - 3) := rfl
  simp only [nodes, List.length_append, List.length_map, hmid,
    temp_length n3 T h3 (by omega), tempLast_length n1 n2 n3 T h1 h2 h3 hT, totalNodes]
  have hring : (1 + (z - 3)) * S n3 T.length
      = S n3 T.length + (z - 3) * S n3 T.length := by ring
  have hS : S n3 T.length = T.length - (n3 + 1) := rfl
  omega

theorem cells_length (n1 n2 n3 N z : ℕ) (origin : List Cell) :
    (cells n1 n2 n3 N z origin).length = (3 + (z - 3)) * origin.length := by
  have hmid : ((List.range (z - 3)).flatMap
      (fun i => origin.map (mapCell (tmIter n1 n2 n3 N (i + 1))))).length
      = (z - 3) * origin.length := by
    apply length_flatMap_range
    intro i
    simp
  simp only [cells, List.length_append, List.length_map, hmid]
  ring

theorem cells_bounded (n1 n2 n3 N z : ℕ) (origin : List Cell)
    (h1 : 1 ≤ n1) (h2 : 1 ≤ n2) (h3 : 1 ≤ n3)
    (hN : R n1 n2 n3 + n3 - 1 ≤ N)
    (horig : ∀ c ∈ origin, cellLt c N) :
    ∀ c ∈ cells n1 n2 n3 N z origin, cellLt c (totalNodes n3 N z) := by
  have hNtot : N ≤ totalNodes n3 N z := by
    simp only [totalNodes]
    omega
  intro c hc
  simp only [cells, List.mem_append, List.mem_map, List.mem_flatMap,
    List.mem_range] at hc
  rcases hc with ((hc | hc) | hc) | hc
  · have := horig c hc
    unfold cellLt at this ⊢
    omega
  · obtain ⟨c0, hc0, rfl⟩ := hc
    have hb := horig c0 hc0
    have hf := tmIter_lt_total n1 n2 n3 N z h1 h2 h3 hN 0 (by omega)
    unfold cellLt at hb ⊢
    exact ⟨hf _ hb.1, hf _ hb.2.1, hf _ hb.2.2.1, hf _ hb.2.2.2⟩
  · obtain ⟨i, hi, c0, hc0, rfl⟩ := hc
    have hb := horig c0 hc0
    have hf := tmIter_lt_total n1 n2 n3 N z h1 h2 h3 hN (i + 1) (by omega)
    unfold cellLt at hb ⊢
    exact ⟨hf _ hb.1, hf _ hb.2.1, hf _ hb.2.2.1, hf _ hb.2.2.2⟩
  · obtain ⟨c0, hc0, rfl⟩ := hc
    have hb := horig c0 hc0
    have hf := tmFinal_lt_total n1 n2 n3 N z h1 h2 h3 hN
    unfold cellLt at hb ⊢
    exact ⟨hf _ hb.1, hf _ hb.2.1, hf _ hb.2.2.1, hf _ hb.2.2.2⟩

end ExtRed

/-! ## RotationalStitcher, external gear, normal branch (gear.py:447-643)

Here `len(key_points) = 16`; `edge_node_num` counts the edge-interior
nodes (gear.py:449); the left-boundary edge nodes occupy `[Lb, Rb)` and the
right-boundary ones `[Rb, Rbe)` (gear.py:579-582). -/

namespace ExtNorm

/-- `single_node_num` (gear.py:563). -/
def S (n3 N : ℕ) : ℕ := N - (n3 + 1)

/-- `edge_node_num = (na-1)*8 + (n2-1)*3 + (n1-1)*3 + (n3-1)*5 + (nf-1)*4`
(gear.py:449-450). -/
def E (n1 n2 n3 na nf : ℕ) : ℕ :=
  (na - 1) * 8 + (n2 - 1) * 3 + (n1 - 1) * 3 + (n3 - 1) * 5 + (nf - 1) * 4

/-- `len(key_points) + edge_node_num - (4*(nf-1) + 2*(n3-1))`. -/
def Lb (n1 n2 n3 na nf : ℕ) : ℕ := 16 + E n1 n2 n3 na nf - (4 * (nf - 1) + 2 * (n3 - 1))

/-- `len(key_points) + edge_node_num - (4*(nf-1) + (n3-1))`. -/
def Rb (n1 n2 n3 na nf : ℕ) : ℕ := 16 + E n1 n2 n3 na nf - (4 * (nf - 1) + (n3 - 1))

/-- `len(key_points) + edge_node_num - 4*(nf-1)`. -/
def Rbe (n1 n2 n3 na nf : ℕ) : ℕ := 16 + E n1 n2 n3 na nf - 4 * (nf - 1)

/-- One non-final copy's `trans_matrix` update.  With
`d1 = S + (n3-1) + 2` and `d2 = S + (n3-1)` this is the left tooth
(gear.py:576-587), with `d1 = d2 = S` a middle tooth (gear.py:601-611):
`trans_matrix[12] = trans_matrix[14]`, `trans_matrix[13] = trans_matrix[15]`,
`trans_matrix[Lb:Rb] = trans_matrix[Rb:Rbe]`,
`trans_matrix[0:12] += d1`, `trans_matrix[14:Lb] += d2`,
`trans_matrix[Rb:] += S`. -/
def phaseStep (n1 n2 n3 na nf N d1 d2 : ℕ) (tm : ℕ → ℕ) : ℕ → ℕ :=
  let t1 := setIdx tm 12 (tm 14)
  let t2 := setIdx t1 13 (t1 15)
  let t3 := copyRange t2 (Lb n1 n2 n3 na nf) (Rb n1 n2 n3 na nf) (Rb n1 n2 n3 na nf)
  let t4 := addRange t3 0 12 d1
  let t5 := addRange t4 14 (Lb n1 n2 n3 na nf) d2
  addRange t5 (Rb n1 n2 n3 na nf) N (S n3 N)

/-- The final (right) tooth's update (gear.py:621-637), with the closing
relink: `trans_matrix[12] = trans_matrix[14]`,
`trans_matrix[13] = trans_matrix[15]`,
`trans_matrix[14] = origin_trans_matrix[12]`,
`trans_matrix[15] = origin_trans_matrix[13]`,
`trans_matrix[Lb:Rb] = trans_matrix[Rb:Rbe]`,
`trans_matrix[Rb:Rbe] = origin_trans_matrix[Lb:Rb]`,
`trans_matrix[0:12] += S`, `trans_matrix[16:Lb] += S - 2`,
`trans_matrix[Rbe:] += S - (n3-1) - 2`. -/
def phaseFinal (n1 n2 n3 na nf N : ℕ) (tm : ℕ → ℕ) : ℕ → ℕ :=
  let t1 := setIdx tm 12 (tm 14)
  let t2 := setIdx t1 13 (t1 15)
  let t3 := setIdx t2 14 12
  let t4 := setIdx t3 15 13
  let t5 := copyRange t4 (Lb n1 n2 n3 na nf) (Rb n1 n2 n3 na nf) (Rb n1 n2 n3 na nf)
  let t6 := setRangeVals t5 (Rb n1 n2 n3 na nf) (Rbe n1 n2 n3 na nf)
      (fun i => Lb n1 n2 n3 na nf + i)
  let t7 := addRange t6 0 12 (S n3 N)
  let t8 := addRange t7 16 (Lb n1 n2 n3 na nf) (S n3 N - 2)
  addRange t8 (Rbe n1 n2 n3 na nf) N (S n3 N - (n3 - 1) - 2)

/-- `temp_node` index selection (gear.py:564-566):
`tooth_node[:12]`, `tooth_node[14:Lb]`, `tooth_node[Rb:]`. -/
def temp (n1 n2 n3 na nf : ℕ) (T : List α) : List α :=
  T.take 12 ++ pySlice T 14 (Lb n1 n2 n3 na nf) ++ T.drop (Rb n1 n2 n3 na nf)

/-- `temp_node_last` index selection (gear.py:568-570):
`tooth_node[:12]`, `tooth_node[16:Lb]`, `tooth_node[Rbe:]`. -/
def tempLast (n1 n2 n3 na nf : ℕ) (T : List α) : List α :=
  T.take 12 ++ pySlice T 16 (Lb n1 n2 n3 na nf) ++ T.drop (Rbe n1 n2 n3 na nf)

/-- `trans_matrix` as updated for copy `k+1`. -/
def tmIter (n1 n2 n3 na nf N k : ℕ) : ℕ → ℕ :=
  (phaseStep n1 n2 n3 na nf N (S n3 N) (S n3 N))^[k]
    (phaseStep n1 n2 n3 na nf N (S n3 N + (n3 - 1) + 2) (S n3 N + (n3 - 1)) id)

/-- `trans_matrix` as updated for the final copy. -/
def tmFinal (n1 n2 n3 na nf N z : ℕ) : ℕ → ℕ :=
  phaseFinal n1 n2 n3 na nf N (tmIter n1 n2 n3 na nf N (z - 3))

/-- The assembled cell array (gear.py:591-594, 613-615, 639-641). -/
def cells (n1 n2 n3 na nf N z : ℕ) (origin : List Cell) : List Cell :=
  origin ++ origin.map (mapCell (tmIter n1 n2 n3 na nf N 0))
    ++ (List.range (z - 3)).flatMap
        (fun i => origin.map (mapCell (tmIter n1 n2 n3 na nf N (i + 1))))
    ++ origin.map (mapCell (tmFinal n1 n2 n3 na nf N z))

/-- The assembled node array (gear.py:589-593, 597-599, 617-619). -/
def nodes (n1 n2 n3 na nf z : ℕ) (rotFn : ℕ → α → α) (T : List α) : List α :=
  T ++ (temp n1 n2 n3 na nf T).map (rotFn 1)
    ++ (List.range (z - 3)).flatMap
        (fun i => (temp n1 n2 n3 na nf T).map (rotFn (i + 2)))
    ++ (tempLast n1 n2 n3 na nf T).map (rotFn (z - 1))

/-! ### Pointwise evaluation of the two phase functions -/

theorem boundary_facts_norm (n1 n2 n3 na nf : ℕ) :
    16 ≤ Lb n1 n2 n3 na nf ∧ Lb n1 n2 n3 na nf + (n3 - 1) = Rb n1 n2 n3 na nf ∧
      Rb n1 n2 n3 na nf + (n3 - 1) = Rbe n1 n2 n3 na nf ∧
      Rbe n1 n2 n3 na nf ≤ 16 + E n1 n2 n3 na nf := by
  simp only [Lb, Rb, Rbe, E]
  omega

theorem phaseStepN_atA (n1 n2 n3 na nf N d1 d2 : ℕ) (tm : ℕ → ℕ) (j : ℕ)
    (hj : j < 12) :
    phaseStep n1 n2 n3 na nf N d1 d2 tm j = tm j + d1 := by
  obtain ⟨hLb, hRb, hRbe, hE⟩ := boundary_facts_norm n1 n2 n3 na nf
  simp only [phaseStep]
  rw [addRange_notMem _ _ _ _ _ (by omega), addRange_notMem _ _ _ _ _ (by omega),
    addRange_mem _ _ _ _ _ (by omega) (by omega),
    copyRange_notMem _ _ _ _ _ (by omega),
    setIdx_other _ _ _ _ (by omega), setIdx_other _ _ _ _ (by omega)]

theorem phaseStepN_at12 (n1 n2 n3 na nf N d1 d2 : ℕ) (tm : ℕ → ℕ) :
    phaseStep n1 n2 n3 na nf N d1 d2 tm 12 = tm 14 := by
  obtain ⟨hLb, hRb, hRbe, hE⟩ := boundary_facts_norm n1 n2 n3 na nf
  simp only [phaseStep]
  rw [addRange_notMem _ _ _ _ _ (by omega), addRange_notMem _ _ _ _ _ (by omega),
    addRange_notMem _ _ _ _ _ (by omega), copyRange_notMem _ _ _ _ _ (by omega),
    setIdx_other _ _ _ _ (by omega), setIdx_self]

theorem phaseStepN_at13 (n1 n2 n3 na nf N d1 d2 : ℕ) (tm : ℕ → ℕ) :
    phaseStep n1 n2 n3 na nf N d1 d2 tm 13 = tm 15 := by
  obtain ⟨hLb, hRb, hRbe, hE⟩ := boundary_facts_norm n1 n2 n3 na nf
  simp only [phaseStep]
  rw [addRange_notMem _ _ _ _ _ (by omega), addRange_notMem _ _ _ _ _ (by omega),
    addRange_notMem _ _ _ _ _ (by omega), copyRange_notMem _ _ _ _ _ (by omega),
    setIdx_self, setIdx_other _ _ _ _ (by omega)]

theorem phaseStepN_atB2 (n1 n2 n3 na nf N d1 d2 : ℕ) (tm : ℕ → ℕ) (j : ℕ)
    (hj1 : 14 ≤ j) (hj2 : j < Lb n1 n2 n3 na nf) :
    phaseStep n1 n2 n3 na nf N d1 d2 tm j = tm j + d2 := by
  obtain ⟨hLb, hRb, hRbe, hE⟩ := boundary_facts_norm n1 n2 n3 na nf
  simp only [phaseStep]
  rw [addRange_notMem _ _ _ _ _ (by omega), addRange_mem _ _ _ _ _ (by omega) (by omega),
    addRange_notMem _ _ _ _ _ (by omega), copyRange_notMem _ _ _ _ _ (by omega),
    setIdx_other _ _ _ _ (by omega), setIdx_other _ _ _ _ (by omega)]

theorem phaseStepN_atL (n1 n2 n3 na nf N d1 d2 : ℕ) (tm : ℕ → ℕ) (j : ℕ)
    (hj1 : Lb n1 n2 n3 na nf ≤ j) (hj2 : j < Rb n1 n2 n3 na nf) :
    phaseStep n1 n2 n3 na nf N d1 d2 tm j
      = tm (Rb n1 n2 n3 na nf + (j - Lb n1 n2 n3 na nf)) := by
  obtain ⟨hLb, hRb, hRbe, hE⟩ := boundary_facts_norm n1 n2 n3 na nf
  simp only [phaseStep]
  rw [addRange_notMem _ _ _ _ _ (by omega), addRange_notMem _ _ _ _ _ (by omega),
    addRange_notMem _ _ _ _ _ (by omega),
    copyRange_mem _ _ _ _ _ (by omega) (by omega),
    setIdx_other _ _ _ _ (by omega), setIdx_other _ _ _ _ (by omega)]

theorem phaseStepN_atB (n1 n2 n3 na nf N d1 d2 : ℕ) (tm : ℕ → ℕ) (j : ℕ)
    (hj1 : Rb n1 n2 n3 na nf ≤ j) (hjN : j < N) :
    phaseStep n1 n2 n3 na nf N d1 d2 tm j = tm j + S n3 N := by
  obtain ⟨hLb, hRb, hRbe, hE⟩ := boundary_facts_norm n1 n2 n3 na nf
  simp only [phaseStep]
  rw [addRange_mem _ _ _ _ _ (by omega) (by omega),
    addRange_notMem _ _ _ _ _ (by omega), addRange_notMem _ _ _ _ _ (by omega),
    copyRange_notMem _ _ _ _ _ (by omega),
    setIdx_other _ _ _ _ (by omega), setIdx_other _ _ _ _ (by omega)]

theorem phaseFinalN_atA (n1 n2 n3 na nf N : ℕ) (tm : ℕ → ℕ) (j : ℕ)
    (hj : j < 12) :
    phaseFinal n1 n2 n3 na nf N tm j = tm j + S n3 N := by
  obtain ⟨hLb, hRb, hRbe, hE⟩ := boundary_facts_norm n1 n2 n3 na nf
  simp only [phaseFinal]
  rw [addRange_notMem _ _ _ _ _ (by omega), addRange_notMem _ _ _ _ _ (by omega),
    addRange_mem _ _ _ _ _ (by omega) (by omega),
    setRangeVals_notMem _ _ _ _ _ (by omega), copyRange_notMem _ _ _ _ _ (by omega),
    setIdx_other _ _ _ _ (by omega), setIdx_other _ _ _ _ (by omega),
    setIdx_other _ _ _ _ (by omega), setIdx_other _ _ _ _ (by omega)]

theorem phaseFinalN_at12 (n1 n2 n3 na nf N : ℕ) (tm : ℕ → ℕ) :
    phaseFinal n1 n2 n3 na nf N tm 12 = tm 14 := by
  obtain ⟨hLb, hRb, hRbe, hE⟩ := boundary_facts_norm n1 n2 n3 na nf
  simp only [phaseFinal]
  rw [addRange_notMem _ _ _ _ _ (by omega), addRange_notMem _ _ _ _ _ (by omega),
    addRange_notMem _ _ _ _ _ (by omega),
    setRangeVals_notMem _ _ _ _ _ (by omega), copyRange_notMem _ _ _ _ _ (by omega),
    setIdx_other _ _ _ _ (by omega), setIdx_other _ _ _ _ (by omega),
    setIdx_other _ _ _ _ (by omega), setIdx_self]

theorem phaseFinalN_at13 (n1 n2 n3 na nf N : ℕ) (tm : ℕ → ℕ) :
    phaseFinal n1 n2 n3 na nf N tm 13 = tm 15 := by
  obtain ⟨hLb, hRb, hRbe, hE⟩ := boundary_facts_norm n1 n2 n3 na nf
  simp only [phaseFinal]
  rw [addRange_notMem _ _ _ _ _ (by omega), addRange_notMem _ _ _ _ _ (by omega),
    addRange_notMem _ _ _ _ _ (by omega),
    setRangeVals_notMem _ _ _ _ _ (by omega), copyRange_notMem _ _ _ _ _ (by omega),
    setIdx_other _ _ _ _ (by omega), setIdx_other _ _ _ _ (by omega),
    setIdx_self, setIdx_other _ _ _ _ (by omega)]

theorem phaseFinalN_at14 (n1 n2 n3 na nf N : ℕ) (tm : ℕ → ℕ) :
    phaseFinal n1 n2 n3 na nf N tm 14 = 12 := by
  obtain ⟨hLb, hRb, hRbe, hE⟩ := boundary_facts_norm n1 n2 n3 na nf
  simp only [phaseFinal]
  rw [addRange_notMem _ _ _ _ _ (by omega), addRange_notMem _ _ _ _ _ (by omega),
    addRange_notMem _ _ _ _ _ (by omega),
    setRangeVals_notMem _ _ _ _ _ (by omega), copyRange_notMem _ _ _ _ _ (by omega),
    setIdx_other _ _ _ _ (by omega), setIdx_self]

theorem phaseFinalN_at15 (n1 n2 n3 na nf N : ℕ) (tm : ℕ → ℕ) :
    phaseFinal n1 n2 n3 na nf N tm 15 = 13 := by
  obtain ⟨hLb, hRb, hRbe, hE⟩ := boundary_facts_norm n1 n2 n3 na nf
  simp only [phaseFinal]
  rw [addRange_notMem _ _ _ _ _ (by omega), addRange_notMem _ _ _ _ _ (by omega),
    addRange_notMem _ _ _ _ _ (by omega),
    setRangeVals_notMem _ _ _ _ _ (by omega), copyRange_notMem _ _ _ _ _ (by omega),
    setIdx_self]

theorem phaseFinalN_atB2 (n1 n2 n3 na nf N : ℕ) (tm : ℕ → ℕ) (j : ℕ)
    (hj1 : 16 ≤ j) (hj2 : j < Lb n1 n2 n3 na nf) :
    phaseFinal n1 n2 n3 na nf N tm j = tm j + (S n3 N - 2) := by
  obtain ⟨hLb, hRb, hRbe, hE⟩ := boundary_facts_norm n1 n2 n3 na nf
  simp only [phaseFinal]
  rw [addRange_notMem _ _ _ _ _ (by omega),
    addRange_mem _ _ _ _ _ (by omega) (by omega),
    addRange_notMem _ _ _ _ _ (by omega),
    setRangeVals_notMem _ _ _ _ _ (by omega), copyRange_notMem _ _ _ _ _ (by omega),
    setIdx_other _ _ _ _ (by omega), setIdx_other _ _ _ _ (by omega),
    setIdx_other _ _ _ _ (by omega), setIdx_other _ _ _ _ (by omega)]

theorem phaseFinalN_atL (n1 n2 n3 na nf N : ℕ) (tm : ℕ → ℕ) (j : ℕ)
    (hj1 : Lb n1 n2 n3 na nf ≤ j) (hj2 : j < Rb n1 n2 n3 na nf) :
    phaseFinal n1 n2 n3 na nf N tm j
      = tm (Rb n1 n2 n3 na nf + (j - Lb n1 n2 n3 na nf)) := by
  obtain ⟨hLb, hRb, hRbe, hE⟩ := boundary_facts_norm n1 n2 n3 na nf
  simp only [phaseFinal]
  rw [addRange_notMem _ _ _ _ _ (by omega), addRange_notMem _ _ _ _ _ (by omega),
    addRange_notMem _ _ _ _ _ (by omega),
    setRangeVals_notMem _ _ _ _ _ (by omega),
    copyRange_mem _ _ _ _ _ (by omega) (by omega),
    setIdx_other _ _ _ _ (by omega), setIdx_other _ _ _ _ (by omega),
    setIdx_other _ _ _ _ (by omega), setIdx_other _ _ _ _ (by omega)]

theorem phaseFinalN_atRB (n1 n2 n3 na nf N : ℕ) (tm : ℕ → ℕ) (j : ℕ)
    (hj1 : Rb n1 n2 n3 na nf ≤ j) (hj2 : j < Rbe n1 n2 n3 na nf) :
    phaseFinal n1 n2 n3 na nf N tm j
      = Lb n1 n2 n3 na nf + (j - Rb n1 n2 n3 na nf) := by
  obtain ⟨hLb, hRb, hRbe, hE⟩ := boundary_facts_norm n1 n2 n3 na nf
  simp only [phaseFinal]
  rw [addRange_notMem _ _ _ _ _ (by omega), addRange_notMem _ _ _ _ _ (by omega),
    addRange_notMem _ _ _ _ _ (by omega),
    setRangeVals_mem _ _ _ _ _ (by omega) (by omega)]

theorem phaseFinalN_atE (n1 n2 n3 na nf N : ℕ) (tm : ℕ → ℕ) (j : ℕ)
    (hj1 : Rbe n1 n2 n3 na nf ≤ j) (hjN : j < N) :
    phaseFinal n1 n2 n3 na nf N tm j = tm j + (S n3 N - (n3 - 1) - 2) := by
  obtain ⟨hLb, hRb, hRbe, hE⟩ := boundary_facts_norm n1 n2 n3 na nf
  simp only [phaseFinal]
  rw [addRange_mem _ _ _ _ _ (by omega) (by omega),
    addRange_notMem _ _ _ _ _ (by omega), addRange_notMem _ _ _ _ _ (by omega),
    setRangeVals_notMem _ _ _ _ _ (by omega), copyRange_notMem _ _ _ _ _ (by omega),
    setIdx_other _ _ _ _ (by omega), setIdx_other _ _ _ _ (by omega),
    setIdx_other _ _ _ _ (by omega), setIdx_other _ _ _ _ (by omega)]

/-! ### Closed form of the remap across the copies -/

/-- Closed form (proved in `tmIterN_eq`) of the remap after the update for
copy `k+1` in the normal branch. -/
def tmIterSpec (n1 n2 n3 na nf N k j : ℕ) : ℕ :=
  if j < 12 then j + (k + 1) * S n3 N + (n3 + 1)
  else if j = 12 then (if k = 0 then 14 else 14 + k * S n3 N + (n3 - 1))
  else if j = 13 then (if k = 0 then 15 else 15 + k * S n3 N + (n3 - 1))
  else if j < Lb n1 n2 n3 na nf then j + (k + 1) * S n3 N + (n3 - 1)
  else if j < Rb n1 n2 n3 na nf then
    (if k = 0 then Rb n1 n2 n3 na nf + (j - Lb n1 n2 n3 na nf)
     else Rb n1 n2 n3 na nf + (j - Lb n1 n2 n3 na nf) + k * S n3 N)
  else j + (k + 1) * S n3 N

theorem tmIterN_eq (n1 n2 n3 na nf N : ℕ) (h3 : 1 ≤ n3)
    (hN : 16 + E n1 n2 n3 na nf ≤ N) :
    ∀ k, ∀ j < N, tmIter n1 n2 n3 na nf N k j = tmIterSpec n1 n2 n3 na nf N k j := by
  obtain ⟨hLb, hRb, hRbe, hE⟩ := boundary_facts_norm n1 n2 n3 na nf
  intro k
  induction k with
  | zero =>
    intro j hj
    simp only [tmIter, Function.iterate_zero, id_eq]
    by_cases hA : j < 12
    · rw [phaseStepN_atA n1 n2 n3 na nf N _ _ id j hA]
      simp only [tmIterSpec, id_eq]
      split_ifs <;> try contradiction
      all_goals omega
    by_cases h12 : j = 12
    · subst h12
      rw [phaseStepN_at12]
      simp only [tmIterSpec, id_eq]
      split_ifs <;> try contradiction
      all_goals omega
    by_cases h13 : j = 13
    · subst h13
      rw [phaseStepN_at13]
      simp only [tmIterSpec, id_eq]
      split_ifs <;> try contradiction
      all_goals omega
    by_cases hB2 : j < Lb n1 n2 n3 na nf
    · rw [phaseStepN_atB2 n1 n2 n3 na nf N _ _ id j (by omega) hB2]
      simp only [tmIterSpec, id_eq]
      split_ifs <;> try contradiction
      all_goals omega
    by_cases hL : j < Rb n1 n2 n3 na nf
    · rw [phaseStepN_atL n1 n2 n3 na nf N _ _ id j (by omega) hL]
      simp only [tmIterSpec, id_eq]
      split_ifs <;> try contradiction
      all_goals omega
    · rw [phaseStepN_atB n1 n2 n3 na nf N _ _ id j (by omega) hj]
      simp only [tmIterSpec, id_eq]
      split_ifs <;> try contradiction
      all_goals omega
  | succ k IH =>
    intro j hj
    have hstep : tmIter n1 n2 n3 na nf N (k + 1) j
        = phaseStep n1 n2 n3 na nf N (S n3 N) (S n3 N) (tmIter n1 n2 n3 na nf N k) j := by
      simp only [tmIter, Function.iterate_succ_apply']
    rw [hstep]
    have hm1 : (k + 1) * S n3 N = k * S n3 N + S n3 N := by ring
    have hm2 : (k + 1 + 1) * S n3 N = (k + 1) * S n3 N + S n3 N := by ring
    by_cases hA : j < 12
    · rw [phaseStepN_atA n1 n2 n3 na nf N _ _ _ j hA, IH j hj]
      simp only [tmIterSpec]
      split_ifs <;> try contradiction
      all_goals omega
    by_cases h12 : j = 12
    · subst h12
      rw [phaseStepN_at12, IH 14 (by omega)]
      simp only [tmIterSpec]
      split_ifs <;> try contradiction
      all_goals omega
    by_cases h13 : j = 13
    · subst h13
      rw [phaseStepN_at13, IH 15 (by omega)]
      simp only [tmIterSpec]
      split_ifs <;> try contradiction
      all_goals omega
    by_cases hB2 : j < Lb n1 n2 n3 na nf
    · rw [phaseStepN_atB2 n1 n2 n3 na nf N _ _ _ j (by omega) hB2, IH j hj]
      simp only [tmIterSpec]
      split_ifs <;> try contradiction
      all_goals omega
    by_cases hL : j < Rb n1 n2 n3 na nf
    · rw [phaseStepN_atL n1 n2 n3 na nf N _ _ _ j (by omega) hL,
        IH (Rb n1 n2 n3 na nf + (j - Lb n1 n2 n3 na nf)) (by omega)]
      simp only [tmIterSpec]
      split_ifs <;> try contradiction
      all_goals omega
    · rw [phaseStepN_atB n1 n2 n3 na nf N _ _ _ j (by omega) hj, IH j hj]
      simp only [tmIterSpec]
      split_ifs <;> try contradiction
      all_goals omega

/-- Closed form (proved in `tmFinalN_eq`) of the final copy's remap in the
normal branch, with the closing relink onto copy 0. -/
def tmFinalSpec (n1 n2 n3 na nf N k j : ℕ) : ℕ :=
  if j < 12 then j + (k + 1) * S n3 N + (n3 + 1) + S n3 N
  else if j = 12 then 14 + (k + 1) * S n3 N + (n3 - 1)
  else if j = 13 then 15 + (k + 1) * S n3 N + (n3 - 1)
  else if j = 14 then 12
  else if j = 15 then 13
  else if j < Lb n1 n2 n3 na nf then j + (k + 1) * S n3 N + (n3 - 1) + (S n3 N - 2)
  else if j < Rb n1 n2 n3 na nf then
    Rb n1 n2 n3 na nf + (j - Lb n1 n2 n3 na nf) + (k + 1) * S n3 N
  else if j < Rbe n1 n2 n3 na nf then Lb n1 n2 n3 na nf + (j - Rb n1 n2 n3 na nf)
  else j + (k + 1) * S n3 N + (S n3 N - (n3 - 1) - 2)

theorem tmFinalN_eq (n1 n2 n3 na nf N z : ℕ) (h3 : 1 ≤ n3)
    (hN : 16 + E n1 n2 n3 na nf ≤ N) :
    ∀ j < N, tmFinal n1 n2 n3 na nf N z j = tmFinalSpec n1 n2 n3 na nf N (z - 3) j := by
  obtain ⟨hLb, hRb, hRbe, hE⟩ := boundary_facts_norm n1 n2 n3 na nf
  have hIter := tmIterN_eq n1 n2 n3 na nf N h3 hN (z - 3)
  intro j hj
  simp only [tmFinal]
  by_cases hA : j < 12
  · rw [phaseFinalN_atA n1 n2 n3 na nf N _ j hA, hIter j hj]
    simp only [tmIterSpec, tmFinalSpec]
    split_ifs <;> try contradiction
    all_goals omega
  by_cases h12 : j = 12
  · subst h12
    rw [phaseFinalN_at12, hIter 14 (by omega)]
    simp only [tmIterSpec, tmFinalSpec]
    split_ifs <;> try contradiction
    all_goals omega
  by_cases h13 : j = 13
  · subst h13
    rw [phaseFinalN_at13, hIter 15 (by omega)]
    simp only [tmIterSpec, tmFinalSpec]
    split_ifs <;> try contradiction
    all_goals omega
  by_cases h14 : j = 14
  · subst h14
    rw [phaseFinalN_at14]
    simp only [tmFinalSpec]
    split_ifs <;> try contradiction
    all_goals omega
  by_cases h15 : j = 15
  · subst h15
    rw [phaseFinalN_at15]
    simp only [tmFinalSpec]
    split_ifs <;> try contradiction
    all_goals omega
  by_cases hB2 : j < Lb n1 n2 n3 na nf
  · rw [phaseFinalN_atB2 n1 n2 n3 na nf N _ j (by omega) hB2, hIter j hj]
    simp only [tmIterSpec, tmFinalSpec]
    split_ifs <;> try contradiction
    all_goals omega
  by_cases hL : j < Rb n1 n2 n3 na nf
  · rw [phaseFinalN_atL n1 n2 n3 na nf N _ j (by omega) hL,
      hIter (Rb n1 n2 n3 na nf + (j - Lb n1 n2 n3 na nf)) (by omega)]
    simp only [tmIterSpec, tmFinalSpec]
    split_ifs <;> try contradiction
    all_goals omega
  by_cases hRBr : j < Rbe n1 n2 n3 na nf
  · rw [phaseFinalN_atRB n1 n2 n3 na nf N _ j (by omega) hRBr]
    simp only [tmFinalSpec]
    split_ifs <;> try contradiction
    all_goals omega
  · rw [phaseFinalN_atE n1 n2 n3 na nf N _ j (by omega) hj, hIter j hj]
    simp only [tmIterSpec, tmFinalSpec]
    split_ifs <;> try contradiction
    all_goals omega

/-! ### Sizes and bounds -/

/-- Node count of the assembled full-wheel mesh in the normal branch. -/
def totalNodes (n3 N z : ℕ) : ℕ :=
  N + (1 + (z - 3)) * S n3 N + (N - 2 * (n3 + 1))

theorem tmIterN_lt_total (n1 n2 n3 na nf N z : ℕ) (h1 : 1 ≤ n1) (h2 : 1 ≤ n2)
    (h3 : 1 ≤ n3) (ha : 1 ≤ na) (hf : 1 ≤ nf)
    (hN : 16 + E n1 n2 n3 na nf ≤ N) (k : ℕ) (hk : k ≤ z - 3) :
    ∀ j < N, tmIter n1 n2 n3 na nf N k j < totalNodes n3 N z := by
  obtain ⟨hLb, hRb, hRbe, hE⟩ := boundary_facts_norm n1 n2 n3 na nf
  intro j hj
  rw [tmIterN_eq n1 n2 n3 na nf N h3 hN k j hj]
  have hEdef : E n1 n2 n3 na nf
      = (na - 1) * 8 + (n2 - 1) * 3 + (n1 - 1) * 3 + (n3 - 1) * 5 + (nf - 1) * 4 := rfl
  have hS : S n3 N = N - (n3 + 1) := rfl
  have hmono : (k + 1) * S n3 N ≤ (1 + (z - 3)) * S n3 N :=
    Nat.mul_le_mul_right _ (by omega)
  have hmono' : k * S n3 N ≤ (k + 1) * S n3 N :=
    Nat.mul_le_mul_right _ (by omega)
  simp only [tmIterSpec, totalNodes]
  split_ifs <;> try contradiction
  all_goals omega

theorem tmFinalN_lt_total (n1 n2 n3 na nf N z : ℕ) (h1 : 1 ≤ n1) (h2 : 1 ≤ n2)
    (h3 : 1 ≤ n3) (ha : 1 ≤ na) (hf : 1 ≤ nf)
    (hN : 16 + E n1 n2 n3 na nf ≤ N) :
    ∀ j < N, tmFinal n1 n2 n3 na nf N z j < totalNodes n3 N z := by
  obtain ⟨hLb, hRb, hRbe, hE⟩ := boundary_facts_norm n1 n2 n3 na nf
  intro j hj
  rw [tmFinalN_eq n1 n2 n3 na nf N z h3 hN j hj]
  have hEdef : E n1 n2 n3 na nf
      = (na - 1) * 8 + (n2 - 1) * 3 + (n1 - 1) * 3 + (n3 - 1) * 5 + (nf - 1) * 4 := rfl
  have hS : S n3 N = N - (n3 + 1) := rfl
  have heq : (z - 3 + 1) * S n3 N = (1 + (z - 3)) * S n3 N := by ring
  simp only [tmFinalSpec, totalNodes]
  split_ifs <;> try contradiction
  all_goals omega

theorem tempN_length (n1 n2 n3 na nf : ℕ) (T : List α) (h3 : 1 ≤ n3)
    (hT : 16 + E n1 n2 n3 na nf ≤ T.length) :
    (temp n1 n2 n3 na nf T).length = S n3 T.length := by
  obtain ⟨hLb, hRb, hRbe, hE⟩ := boundary_facts_norm n1 n2 n3 na nf
  simp only [temp, pySlice, List.length_append, List.length_take, List.length_drop, S,
    inf_eq_min, Nat.min_def]
  split_ifs <;> omega

theorem tempLastN_length (n1 n2 n3 na nf : ℕ) (T : List α) (h3 : 1 ≤ n3)
    (hT : 16 + E n1 n2 n3 na nf ≤ T.length) :
    (tempLast n1 n2 n3 na nf T).length = T.length - 2 * (n3 + 1) := by
  obtain ⟨hLb, hRb, hRbe, hE⟩ := boundary_facts_norm n1 n2 n3 na nf
  simp only [tempLast, pySlice, List.length_append, List.length_take, List.length_drop,
    inf_eq_min, Nat.min_def]
  split_ifs <;> omega

theorem nodesN_length (n1 n2 n3 na nf z : ℕ) (rotFn : ℕ → α → α) (T : List α)
    (h3 : 1 ≤ n3) (hT : 16 + E n1 n2 n3 na nf ≤ T.length) :
    (nodes n1 n2 n3 na nf z rotFn T).length = totalNodes n3 T.length z := by
  have hmid : ((List.range (z - 3)).flatMap
      (fun i => (temp n1 n2 n3 na nf T).map (rotFn (i + 2)))).length
      = (z - 3) * (temp n1 n2 n3 na nf T).length := by
    apply length_flatMap_range
    intro i
    simp
  obtain ⟨hLb, hRb, hRbe, hE⟩ := boundary_facts_norm n1 n2 n3 na nf
  simp only [nodes, List.length_append, List.length_map, hmid,
    tempN_length n1 n2 n3 na nf T h3 hT, tempLastN_length n1 n2 n3 na nf T h3 hT,
    totalNodes]
  have hring : (1 + (z - 3)) * S n3 T.length
      = S n3 T.length + (z - 3) * S n3 T.length := by ring
  have hS : S n3 T.length = T.length - (n3 + 1) := rfl
  omega

theorem cellsN_length (n1 n2 n3 na nf N z : ℕ) (origin : List Cell) :
    (cells n1 n2 n3 na nf N z origin).length = (3 + (z - 3)) * origin.length := by
  have hmid : ((List.range (z - 3)).flatMap
      (fun i => origin.map (mapCell (tmIter n1 n2 n3 na nf N (i + 1))))).length
      = (z - 3) * origin.length := by
    apply length_flatMap_range
    intro i
    simp
  simp only [cells, List.length_append, List.length_map, hmid]
  ring

theorem cellsN_bounded (n1 n2 n3 na nf N z : ℕ) (origin : List Cell)
    (h1 : 1 ≤ n1) (h2 : 1 ≤ n2) (h3 : 1 ≤ n3) (ha : 1 ≤ na) (hf : 1 ≤ nf)
    (hN : 16 + E n1 n2 n3 na nf ≤ N)
    (horig : ∀ c ∈ origin, cellLt c N) :
    ∀ c ∈ cells n1 n2 n3 na nf N z origin, cellLt c (totalNodes n3 N z) := by
  have hNtot : N ≤ totalNodes n3 N z := by
    simp only [totalNodes]
    omega
  intro c hc
  simp only [cells, List.mem_append, List.mem_map, List.mem_flatMap,
    List.mem_range] at hc
  rcases hc with ((hc | hc) | hc) | hc
  · have := horig c hc
    unfold cellLt at this ⊢
    omega
  · obtain ⟨c0, hc0, rfl⟩ := hc
    have hb := horig c0 hc0
    have hlt := tmIterN_lt_total n1 n2 n3 na nf N z h1 h2 h3 ha hf hN 0 (by omega)
    unfold cellLt at hb ⊢
    exact ⟨hlt _ hb.1, hlt _ hb.2.1, hlt _ hb.2.2.1, hlt _ hb.2.2.2⟩
  · obtain ⟨i, hi, c0, hc0, rfl⟩ := hc
    have hb := horig c0 hc0
    have hlt := tmIterN_lt_total n1 n2 n3 na nf N z h1 h2 h3 ha hf hN (i + 1) (by omega)
    unfold cellLt at hb ⊢
    exact ⟨hlt _ hb.1, hlt _ hb.2.1, hlt _ hb.2.2.1, hlt _ hb.2.2.2⟩
  · obtain ⟨c0, hc0, rfl⟩ := hc
    have hb := horig c0 hc0
    have hlt := tmFinalN_lt_total n1 n2 n3 na nf N z h1 h2 h3 ha hf hN
    unfold cellLt at hb ⊢
    exact ⟨hlt _ hb.1, hlt _ hb.2.1, hlt _ hb.2.2.1, hlt _ hb.2.2.2⟩

end ExtNorm

/-! ## RotationalStitcher, internal gear (gear.py:1006-1086 and 1240-1319)

The two internal topology branches run the *same* stitching code; only
`len(key_points)` differs (`K = 14` in the thick-fillet branch, `K = 18`
in the thin one), so one model parameterized by `K` covers both.
`single_node_num = N - (n1+n2+n3+1)` (gear.py:1007/1242), the shared
boundary blocks are `[K, K+M)` and `[K+M, K+2M)` with
`M = n1+n2+n3-3` (gear.py:1023-1024/1257-1258). -/

namespace Intl

/-- `single_node_num` (gear.py:1007, 1242). -/
def S (n1 n2 n3 N : ℕ) : ℕ := N - (n1 + n2 + n3 + 1)

/-- `n1 + n2 + n3 - 3`: length of each boundary edge-node block. -/
def M (n1 n2 n3 : ℕ) : ℕ := n1 + n2 + n3 - 3

/-- One non-final copy's `trans_matrix` update.  With `d = S + M` this is
the left tooth (gear.py:1018-1028), with `d = S` a middle tooth
(gear.py:1044-1053): `trans_matrix[i] = trans_matrix[4+i]` for `i < 4`,
`trans_matrix[K:K+M] = trans_matrix[K+M:K+2M]`,
`trans_matrix[4:K] += d`, `trans_matrix[K+M:] += S`. -/
def phaseStep (n1 n2 n3 K N d : ℕ) (tm : ℕ → ℕ) : ℕ → ℕ :=
  let t1 := setIdx tm 0 (tm 4)
  let t2 := setIdx t1 1 (t1 5)
  let t3 := setIdx t2 2 (t2 6)
  let t4 := setIdx t3 3 (t3 7)
  let t5 := copyRange t4 K (K + M n1 n2 n3) (K + M n1 n2 n3)
  let t6 := addRange t5 4 K d
  addRange t6 (K + M n1 n2 n3) N (S n1 n2 n3 N)

/-- The final (right) tooth's update (gear.py:1064-1080), with the closing
relink onto copy 0: `trans_matrix[i] = trans_matrix[4+i]`,
`trans_matrix[4+i] = origin_trans_matrix[i]` for `i < 4`,
`trans_matrix[K:K+M] = trans_matrix[K+M:K+2M]`,
`trans_matrix[K+M:K+2M] = origin_trans_matrix[K:K+M]`,
`trans_matrix[8:K] += S - 4`, `trans_matrix[K+2M:] += S - (n1+n2+n3+1)`. -/
def phaseFinal (n1 n2 n3 K N : ℕ) (tm : ℕ → ℕ) : ℕ → ℕ :=
  let t1 := setIdx tm 0 (tm 4)
  let t2 := setIdx t1 1 (t1 5)
  let t3 := setIdx t2 2 (t2 6)
  let t4 := setIdx t3 3 (t3 7)
  let t5 := setIdx t4 4 0
  let t6 := setIdx t5 5 1
  let t7 := setIdx t6 6 2
  let t8 := setIdx t7 7 3
  let t9 := copyRange t8 K (K + M n1 n2 n3) (K + M n1 n2 n3)
  let t10 := setRangeVals t9 (K + M n1 n2 n3) (K + 2 * M n1 n2 n3) (fun i => K + i)
  let t11 := addRange t10 8 K (S n1 n2 n3 N - 4)
  addRange t11 (K + 2 * M n1 n2 n3) N (S n1 n2 n3 N - (n1 + n2 + n3 + 1))

/-- `temp_node` index selection (gear.py:1009-1010, 1244-1245):
`tooth_node[4:K]`, `tooth_node[K+M:]`. -/
def temp (n1 n2 n3 K : ℕ) (T : List α) : List α :=
  pySlice T 4 K ++ T.drop (K + M n1 n2 n3)

/-- `temp_node_last` index selection (gear.py:1011-1012, 1246-1247):
`tooth_node[8:K]`, `tooth_node[K+2M:]`. -/
def tempLast (n1 n2 n3 K : ℕ) (T : List α) : List α :=
  pySlice T 8 K ++ T.drop (K + 2 * M n1 n2 n3)

/-- `trans_matrix` as updated for copy `k+1`. -/
def tmIter (n1 n2 n3 K N k : ℕ) : ℕ → ℕ :=
  (phaseStep n1 n2 n3 K N (S n1 n2 n3 N))^[k]
    (phaseStep n1 n2 n3 K N (S n1 n2 n3 N + M n1 n2 n3) id)

/-- `trans_matrix` as updated for the final copy. -/
def tmFinal (n1 n2 n3 K N z : ℕ) : ℕ → ℕ :=
  phaseFinal n1 n2 n3 K N (tmIter n1 n2 n3 K N (z - 3))

/-- The assembled cell array (gear.py:1032-1035, 1055-1057, 1082-1084). -/
def cells (n1 n2 n3 K N z : ℕ) (origin : List Cell) : List Cell :=
  origin ++ origin.map (mapCell (tmIter n1 n2 n3 K N 0))
    ++ (List.range (z - 3)).flatMap
        (fun i => origin.map (mapCell (tmIter n1 n2 n3 K N (i + 1))))
    ++ origin.map (mapCell (tmFinal n1 n2 n3 K N z))

/-- The assembled node array (gear.py:1030-1034, 1038-1056, 1060-1083). -/
def nodes (n1 n2 n3 K z : ℕ) (rotFn : ℕ → α → α) (T : List α) : List α :=
  T ++ (temp n1 n2 n3 K T).map (rotFn 1)
    ++ (List.range (z - 3)).flatMap
        (fun i => (temp n1 n2 n3 K T).map (rotFn (i + 2)))
    ++ (tempLast n1 n2 n3 K T).map (rotFn (z - 1))

/-! ### Pointwise evaluation of the two phase functions -/

theorem phaseStepI_atV (n1 n2 n3 K N d : ℕ) (tm : ℕ → ℕ) (j : ℕ)
    (hK : 8 ≤ K) (hj : j < 4) :
    phaseStep n1 n2 n3 K N d tm j = tm (4 + j) := by
  simp only [phaseStep]
  interval_cases j <;>
    rw [addRange_notMem _ _ _ _ _ (by omega), addRange_notMem _ _ _ _ _ (by omega),
      copyRange_notMem _ _ _ _ _ (by omega)] <;>
    simp [setIdx]

theorem phaseStepI_atA (n1 n2 n3 K N d : ℕ) (tm : ℕ → ℕ) (j : ℕ)
    (hK : 8 ≤ K) (hj1 : 4 ≤ j) (hj2 : j < K) :
    phaseStep n1 n2 n3 K N d tm j = tm j + d := by
  simp only [phaseStep]
  rw [addRange_notMem _ _ _ _ _ (by omega), addRange_mem _ _ _ _ _ (by omega) (by omega),
    copyRange_notMem _ _ _ _ _ (by omega), setIdx_other _ _ _ _ (by omega),
    setIdx_other _ _ _ _ (by omega), setIdx_other _ _ _ _ (by omega),
    setIdx_other _ _ _ _ (by omega)]

theorem phaseStepI_atL (n1 n2 n3 K N d : ℕ) (tm : ℕ → ℕ) (j : ℕ)
    (hK : 8 ≤ K) (hj1 : K ≤ j) (hj2 : j < K + M n1 n2 n3) :
    phaseStep n1 n2 n3 K N d tm j = tm (K + M n1 n2 n3 + (j - K)) := by
  simp only [phaseStep]
  rw [addRange_notMem _ _ _ _ _ (by omega), addRange_notMem _ _ _ _ _ (by omega),
    copyRange_mem _ _ _ _ _ (by omega) (by omega),
    setIdx_other _ _ _ _ (by omega), setIdx_other _ _ _ _ (by omega),
    setIdx_other _ _ _ _ (by omega), setIdx_other _ _ _ _ (by omega)]

theorem phaseStepI_atB (n1 n2 n3 K N d : ℕ) (tm : ℕ → ℕ) (j : ℕ)
    (hK : 8 ≤ K) (hj1 : K + M n1 n2 n3 ≤ j) (hjN : j < N) :
    phaseStep n1 n2 n3 K N d tm j = tm j + S n1 n2 n3 N := by
  simp only [phaseStep]
  rw [addRange_mem _ _ _ _ _ (by omega) (by omega),
    addRange_notMem _ _ _ _ _ (by omega), copyRange_notMem _ _ _ _ _ (by omega),
    setIdx_other _ _ _ _ (by omega), setIdx_other _ _ _ _ (by omega),
    setIdx_other _ _ _ _ (by omega), setIdx_other _ _ _ _ (by omega)]

theorem phaseFinalI_atV (n1 n2 n3 K N : ℕ) (tm : ℕ → ℕ) (j : ℕ)
    (hK : 8 ≤ K) (hj : j < 4) :
    phaseFinal n1 n2 n3 K N tm j = tm (4 + j) := by
  simp only [phaseFinal]
  interval_cases j <;>
    rw [addRange_notMem _ _ _ _ _ (by omega), addRange_notMem _ _ _ _ _ (by omega),
      setRangeVals_notMem _ _ _ _ _ (by omega), copyRange_notMem _ _ _ _ _ (by omega)] <;>
    simp [setIdx]

theorem phaseFinalI_atW (n1 n2 n3 K N : ℕ) (tm : ℕ → ℕ) (j : ℕ)
    (hK : 8 ≤ K) (hj1 : 4 ≤ j) (hj2 : j < 8) :
    phaseFinal n1 n2 n3 K N tm j = j - 4 := by
  simp only [phaseFinal]
  interval_cases j <;>
    rw [addRange_notMem _ _ _ _ _ (by omega), addRange_notMem _ _ _ _ _ (by omega),
      setRangeVals_notMem _ _ _ _ _ (by omega), copyRange_notMem _ _ _ _ _ (by omega)] <;>
    simp [setIdx]

theorem phaseFinalI_atA (n1 n2 n3 K N : ℕ) (tm : ℕ → ℕ) (j : ℕ)
    (hK : 8 ≤ K) (hj1 : 8 ≤ j) (hj2 : j < K) :
    phaseFinal n1 n2 n3 K N tm j = tm j + (S n1 n2 n3 N - 4) := by
  simp only [phaseFinal]
  rw [addRange_notMem _ _ _ _ _ (by omega), addRange_mem _ _ _ _ _ (by omega) (by omega),
    setRangeVals_notMem _ _ _ _ _ (by omega), copyRange_notMem _ _ _ _ _ (by omega),
    setIdx_other _ _ _ _ (by omega), setIdx_other _ _ _ _ (by omega),
    setIdx_other _ _ _ _ (by omega), setIdx_other _ _ _ _ (by omega),
    setIdx_other _ _ _ _ (by omega), setIdx_other _ _ _ _ (by omega),
    setIdx_other _ _ _ _ (by omega), setIdx_other _ _ _ _ (by omega)]

theorem phaseFinalI_atL (n1 n2 n3 K N : ℕ) (tm : ℕ → ℕ) (j : ℕ)
    (hK : 8 ≤ K) (hj1 : K ≤ j) (hj2 : j < K + M n1 n2 n3) :
    phaseFinal n1 n2 n3 K N tm j = tm (K + M n1 n2 n3 + (j - K)) := by
  simp only [phaseFinal]
  rw [addRange_notMem _ _ _ _ _ (by omega), addRange_notMem _ _ _ _ _ (by omega),
    setRangeVals_notMem _ _ _ _ _ (by omega),
    copyRange_mem _ _ _ _ _ (by omega) (by omega),
    setIdx_other _ _ _ _ (by omega), setIdx_other _ _ _ _ (by omega),
    setIdx_other _ _ _ _ (by omega), setIdx_other _ _ _ _ (by omega),
    setIdx_other _ _ _ _ (by omega), setIdx_other _ _ _ _ (by omega),
    setIdx_other _ _ _ _ (by omega), setIdx_other _ _ _ _ (by omega)]

theorem phaseFinalI_atRB (n1 n2 n3 K N : ℕ) (tm : ℕ → ℕ) (j : ℕ)
    (hK : 8 ≤ K) (hj1 : K + M n1 n2 n3 ≤ j) (hj2 : j < K + 2 * M n1 n2 n3) :
    phaseFinal n1 n2 n3 K N tm j = K + (j - (K + M n1 n2 n3)) := by
  simp only [phaseFinal]
  rw [addRange_notMem _ _ _ _ _ (by omega), addRange_notMem _ _ _ _ _ (by omega),
    setRangeVals_mem _ _ _ _ _ (by omega) (by omega)]

theorem phaseFinalI_atE (n1 n2 n3 K N : ℕ) (tm : ℕ → ℕ) (j : ℕ)
    (hK : 8 ≤ K) (hj1 : K + 2 * M n1 n2 n3 ≤ j) (hjN : j < N) :
    phaseFinal n1 n2 n3 K N tm j = tm j + (S n1 n2 n3 N - (n1 + n2 + n3 + 1)) := by
  simp only [phaseFinal]
  rw [addRange_mem _ _ _ _ _ (by omega) (by omega),
    addRange_notMem _ _ _ _ _ (by omega),
    setRangeVals_notMem _ _ _ _ _ (by omega), copyRange_notMem _ _ _ _ _ (by omega),
    setIdx_other _ _ _ _ (by omega), setIdx_other _ _ _ _ (by omega),
    setIdx_other _ _ _ _ (by omega), setIdx_other _ _ _ _ (by omega),
    setIdx_other _ _ _ _ (by omega), setIdx_other _ _ _ _ (by omega),
    setIdx_other _ _ _ _ (by omega), setIdx_other _ _ _ _ (by omega)]

/-! ### Closed form of the remap across the copies -/

/-- Closed form (proved in `tmIterI_eq`) of the remap after the update for
copy `k+1` in the internal branches. -/
def tmIterSpec (n1 n2 n3 K N k j : ℕ) : ℕ :=
  if j < 4 then (if k = 0 then 4 + j else 4 + j + k * S n1 n2 n3 N + M n1 n2 n3)
  else if j < K then j + (k + 1) * S n1 n2 n3 N + M n1 n2 n3
  else if j < K + M n1 n2 n3 then
    (if k = 0 then K + M n1 n2 n3 + (j - K)
     else K + M n1 n2 n3 + (j - K) + k * S n1 n2 n3 N)
  else j + (k + 1) * S n1 n2 n3 N

theorem tmIterI_eq (n1 n2 n3 K N : ℕ) (hK : 8 ≤ K)
    (hN : K + 2 * M n1 n2 n3 ≤ N) :
    ∀ k, ∀ j < N, tmIter n1 n2 n3 K N k j = tmIterSpec n1 n2 n3 K N k j := by
  intro k
  induction k with
  | zero =>
    intro j hj
    simp only [tmIter, Function.iterate_zero, id_eq]
    by_cases hV : j < 4
    · rw [phaseStepI_atV n1 n2 n3 K N _ id j hK hV]
      simp only [tmIterSpec, id_eq]
      split_ifs <;> try contradiction
      all_goals omega
    by_cases hA : j < K
    · rw [phaseStepI_atA n1 n2 n3 K N _ id j hK (by omega) hA]
      simp only [tmIterSpec, id_eq]
      split_ifs <;> try contradiction
      all_goals omega
    by_cases hL : j < K + M n1 n2 n3
    · rw [phaseStepI_atL n1 n2 n3 K N _ id j hK (by omega) hL]
      simp only [tmIterSpec, id_eq]
      split_ifs <;> try contradiction
      all_goals omega
    · rw [phaseStepI_atB n1 n2 n3 K N _ id j hK (by omega) hj]
      simp only [tmIterSpec, id_eq]
      split_ifs <;> try contradiction
      all_goals omega
  | succ k IH =>
    intro j hj
    have hstep : tmIter n1 n2 n3 K N (k + 1) j
        = phaseStep n1 n2 n3 K N (S n1 n2 n3 N) (tmIter n1 n2 n3 K N k) j := by
      simp only [tmIter, Function.iterate_succ_apply']
    rw [hstep]
    have hm1 : (k + 1) * S n1 n2 n3 N = k * S n1 n2 n3 N + S n1 n2 n3 N := by ring
    have hm2 : (k + 1 + 1) * S n1 n2 n3 N = (k + 1) * S n1 n2 n3 N + S n1 n2 n3 N := by
      ring
    by_cases hV : j < 4
    · rw [phaseStepI_atV n1 n2 n3 K N _ _ j hK hV, IH (4 + j) (by omega)]
      simp only [tmIterSpec]
      split_ifs <;> try contradiction
      all_goals omega
    by_cases hA : j < K
    · rw [phaseStepI_atA n1 n2 n3 K N _ _ j hK (by omega) hA, IH j hj]
      simp only [tmIterSpec]
      split_ifs <;> try contradiction
      all_goals omega
    by_cases hL : j < K + M n1 n2 n3
    · rw [phaseStepI_atL n1 n2 n3 K N _ _ j hK (by omega) hL,
        IH (K + M n1 n2 n3 + (j - K)) (by omega)]
      simp only [tmIterSpec]
      split_ifs <;> try contradiction
      all_goals omega
    · rw [phaseStepI_atB n1 n2 n3 K N _ _ j hK (by omega) hj, IH j hj]
      simp only [tmIterSpec]
      split_ifs <;> try contradiction
      all_goals omega

/-- Closed form (proved in `tmFinalI_eq`) of the final copy's remap in the
internal branches, with the closing relink onto copy 0. -/
def tmFinalSpec (n1 n2 n3 K N k j : ℕ) : ℕ :=
  if j < 4 then 4 + j + (k + 1) * S n1 n2 n3 N + M n1 n2 n3
  else if j < 8 then j - 4
  else if j < K then j + (k + 1) * S n1 n2 n3 N + M n1 n2 n3 + (S n1 n2 n3 N - 4)
  else if j < K + M n1 n2 n3 then
    K + M n1 n2 n3 + (j - K) + (k + 1) * S n1 n2 n3 N
  else if j < K + 2 * M n1 n2 n3 then K + (j - (K + M n1 n2 n3))
  else j + (k + 1) * S n1 n2 n3 N + (S n1 n2 n3 N - (n1 + n2 + n3 + 1))

theorem tmFinalI_eq (n1 n2 n3 K N z : ℕ) (hK : 8 ≤ K)
    (hN : K + 2 * M n1 n2 n3 ≤ N) :
    ∀ j < N, tmFinal n1 n2 n3 K N z j = tmFinalSpec n1 n2 n3 K N (z - 3) j := by
  have hIter := tmIterI_eq n1 n2 n3 K N hK hN (z - 3)
  intro j hj
  simp only [tmFinal]
  by_cases hV : j < 4
  · rw [phaseFinalI_atV n1 n2 n3 K N _ j hK hV, hIter (4 + j) (by omega)]
    simp only [tmIterSpec, tmFinalSpec]
    split_ifs <;> try contradiction
    all_goals omega
  by_cases hW : j < 8
  · rw [phaseFinalI_atW n1 n2 n3 K N _ j hK (by omega) hW]
    simp only [tmFinalSpec]
    split_ifs <;> try contradiction
    all_goals omega
  by_cases hA : j < K
  · rw [phaseFinalI_atA n1 n2 n3 K N _ j hK (by omega) hA, hIter j hj]
    simp only [tmIterSpec, tmFinalSpec]
    split_ifs <;> try contradiction
    all_goals omega
  by_cases hL : j < K + M n1 n2 n3
  · rw [phaseFinalI_atL n1 n2 n3 K N _ j hK (by omega) hL,
      hIter (K + M n1 n2 n3 + (j - K)) (by omega)]
    simp only [tmIterSpec, tmFinalSpec]
    split_ifs <;> try contradiction
    all_goals omega
  by_cases hRB : j < K + 2 * M n1 n2 n3
  · rw [phaseFinalI_atRB n1 n2 n3 K N _ j hK (by omega) hRB]
    simp only [tmFinalSpec]
    split_ifs <;> try contradiction
    all_goals omega
  · rw [phaseFinalI_atE n1 n2 n3 K N _ j hK (by omega) hj, hIter j hj]
    simp only [tmIterSpec, tmFinalSpec]
    split_ifs <;> try contradiction
    all_goals omega

/-! ### Sizes and bounds -/

/-- Node count of the assembled full-wheel mesh in the internal branches. -/
def totalNodes (n1 n2 n3 N z : ℕ) : ℕ :=
  N + (1 + (z - 3)) * S n1 n2 n3 N + (N - 2 * (n1 + n2 + n3 + 1))

theorem tmIterI_lt_total (n1 n2 n3 K N z : ℕ) (hK : 8 ≤ K) (h123 : 3 ≤ n1 + n2 + n3)
    (hN : K + 3 * M n1 n2 n3 ≤ N) (k : ℕ) (hk : k ≤ z - 3) :
    ∀ j < N, tmIter n1 n2 n3 K N k j < totalNodes n1 n2 n3 N z := by
  intro j hj
  rw [tmIterI_eq n1 n2 n3 K N hK (by simp only [M] at hN ⊢; omega) k j hj]
  have hS : S n1 n2 n3 N = N - (n1 + n2 + n3 + 1) := rfl
  have hM : M n1 n2 n3 = n1 + n2 + n3 - 3 := rfl
  have hmono : (k + 1) * S n1 n2 n3 N ≤ (1 + (z - 3)) * S n1 n2 n3 N :=
    Nat.mul_le_mul_right _ (by omega)
  have hmono' : k * S n1 n2 n3 N ≤ (k + 1) * S n1 n2 n3 N :=
    Nat.mul_le_mul_right _ (by omega)
  simp only [tmIterSpec, totalNodes]
  split_ifs <;> try contradiction
  all_goals omega

theorem tmFinalI_lt_total (n1 n2 n3 K N z : ℕ) (hK : 8 ≤ K) (h123 : 3 ≤ n1 + n2 + n3)
    (hN : K + 3 * M n1 n2 n3 ≤ N) :
    ∀ j < N, tmFinal n1 n2 n3 K N z j < totalNodes n1 n2 n3 N z := by
  intro j hj
  rw [tmFinalI_eq n1 n2 n3 K N z hK (by simp only [M] at hN ⊢; omega) j hj]
  have hS : S n1 n2 n3 N = N - (n1 + n2 + n3 + 1) := rfl
  have hM : M n1 n2 n3 = n1 + n2 + n3 - 3 := rfl
  have heq : (z - 3 + 1) * S n1 n2 n3 N = (1 + (z - 3)) * S n1 n2 n3 N := by ring
  simp only [tmFinalSpec, totalNodes]
  split_ifs <;> try contradiction
  all_goals omega

theorem tempI_length (n1 n2 n3 K : ℕ) (T : List α) (hK : 8 ≤ K)
    (h123 : 3 ≤ n1 + n2 + n3) (hT : K + 2 * M n1 n2 n3 ≤ T.length) :
    (temp n1 n2 n3 K T).length = S n1 n2 n3 T.length := by
  have hM : M n1 n2 n3 = n1 + n2 + n3 - 3 := rfl
  simp only [temp, pySlice, List.length_append, List.length_take, List.length_drop, S,
    inf_eq_min, Nat.min_def]
  split_ifs <;> omega

theorem tempLastI_length (n1 n2 n3 K : ℕ) (T : List α) (hK : 8 ≤ K)
    (h123 : 3 ≤ n1 + n2 + n3) (hT : K + 2 * M n1 n2 n3 ≤ T.length) :
    (tempLast n1 n2 n3 K T).length = T.length - 2 * (n1 + n2 + n3 + 1) := by
  have hM : M n1 n2 n3 = n1 + n2 + n3 - 3 := rfl
  simp only [tempLast, pySlice, List.length_append, List.length_take, List.length_drop,
    inf_eq_min, Nat.min_def]
  split_ifs <;> omega

theorem nodesI_length (n1 n2 n3 K z : ℕ) (rotFn : ℕ → α → α) (T : List α)
    (hK : 8 ≤ K) (h123 : 3 ≤ n1 + n2 + n3) (hT : K + 2 * M n1 n2 n3 ≤ T.length) :
    (nodes n1 n2 n3 K z rotFn T).length = totalNodes n1 n2 n3 T.length z := by
  have hmid : ((List.range (z - 3)).flatMap
      (fun i => (temp n1 n2 n3 K T).map (rotFn (i + 2)))).length
      = (z - 3) * (temp n1 n2 n3 K T).length := by
    apply length_flatMap_range
    intro i
    simp
  have hM : M n1 n2 n3 = n1 + n2 + n3 - 3 := rfl
  simp only [nodes, List.length_append, List.length_map, hmid,
    tempI_length n1 n2 n3 K T hK h123 hT, tempLastI_length n1 n2 n3 K T hK h123 hT,
    totalNodes]
  have hring : (1 + (z - 3)) * S n1 n2 n3 T.length
      = S n1 n2 n3 T.length + (z - 3) * S n1 n2 n3 T.length := by ring
  have hS : S n1 n2 n3 T.length = T.length - (n1 + n2 + n3 + 1) := rfl
  omega

theorem cellsI_length (n1 n2 n3 K N z : ℕ) (origin : List Cell) :
    (cells n1 n2 n3 K N z origin).length = (3 + (z - 3)) * origin.length := by
  have hmid : ((List.range (z - 3)).flatMap
      (fun i => origin.map (mapCell (tmIter n1 n2 n3 K N (i + 1))))).length
      = (z - 3) * origin.length := by
    apply length_flatMap_range
    intro i
    simp
  simp only [cells, List.length_append, List.length_map, hmid]
  ring

theorem cellsI_bounded (n1 n2 n3 K N z : ℕ) (origin : List Cell)
    (hK : 8 ≤ K) (h123 : 3 ≤ n1 + n2 + n3) (hN : K + 3 * M n1 n2 n3 ≤ N)
    (horig : ∀ c ∈ origin, cellLt c N) :
    ∀ c ∈ cells n1 n2 n3 K N z origin, cellLt c (totalNodes n1 n2 n3 N z) := by
  have hNtot : N ≤ totalNodes n1 n2 n3 N z := by
    simp only [totalNodes]
    omega
  intro c hc
  simp only [cells, List.mem_append, List.mem_map, List.mem_flatMap,
    List.mem_range] at hc
  rcases hc with ((hc | hc) | hc) | hc
  · have := horig c hc
    unfold cellLt at this ⊢
    omega
  · obtain ⟨c0, hc0, rfl⟩ := hc
    have hb := horig c0 hc0
    have hlt := tmIterI_lt_total n1 n2 n3 K N z hK h123 hN 0 (by omega)
    unfold cellLt at hb ⊢
    exact ⟨hlt _ hb.1, hlt _ hb.2.1, hlt _ hb.2.2.1, hlt _ hb.2.2.2⟩
  · obtain ⟨i, hi, c0, hc0, rfl⟩ := hc
    have hb := horig c0 hc0
    have hlt := tmIterI_lt_total n1 n2 n3 K N z hK h123 hN (i + 1) (by omega)
    unfold cellLt at hb ⊢
    exact ⟨hlt _ hb.1, hlt _ hb.2.1, hlt _ hb.2.2.1, hlt _ hb.2.2.2⟩
  · obtain ⟨c0, hc0, rfl⟩ := hc
    have hb := horig c0 hc0
    have hlt := tmFinalI_lt_total n1 n2 n3 K N z hK h123 hN
    unfold cellLt at hb ⊢
    exact ⟨hlt _ hb.1, hlt _ hb.2.1, hlt _ hb.2.2.1, hlt _ hb.2.2.2⟩

end Intl

/-! ## Claim C1 — cell and node counts of the assembled wheel -/

/-- Helper: the assembled node count is strictly below `z` times the
single-tooth node count once `z ≥ 3` and boundary nodes exist. -/
theorem totalNodes_shape_lt (N b z : ℕ) (hb : 1 ≤ b) (hbN : 2 * b ≤ N) (hz : 3 ≤ z) :
    N + (1 + (z - 3)) * (N - b) + (N - 2 * b) < z * N := by
  have h1 : (1 + (z - 3)) * (N - b) ≤ (1 + (z - 3)) * N :=
    Nat.mul_le_mul_left _ (by omega)
  have h2 : (1 + (z - 3)) * N = (z - 2) * N := by
    congr 1
    omega
  have h3 : (z - 2) * N = z * N - 2 * N := Nat.sub_mul z 2 N
  have h4 : 2 * N ≤ z * N := Nat.mul_le_mul_right N (by omega)
  omega

/-- C1 counterexample: for `z = 2` the stitching loop structure (initial
tooth, left tooth, empty middle loop, right tooth) emits **three** copies
of the single-tooth cells, so the assembled cell count is `3×`, not `2×`,
the single-tooth cell count (normal external branch, minimal sizes,
single-tooth mesh of 16 nodes and one cell). -/
theorem C1_counterexample :
    (ExtNorm.cells 1 1 1 1 1 16 2 [(0, 1, 2, 3)]).length
      ≠ 2 * ([((0 : ℕ), (1 : ℕ), (2 : ℕ), (3 : ℕ))] : List Cell).length := by
  rw [ExtNorm.cellsN_length]
  decide

/-- C1 amended: for every gear with `z ≥ 3` (for `z = 2` the loop emits a
third copy, see the counterexample), in all topology branches the
assembled mesh has exactly `z ×` the single-tooth cell count and strictly
fewer than `z ×` the single-tooth node count. -/
theorem C1_amended :
    (∀ (n1 n2 n3 z : ℕ) (origin : List Cell) (rotFn : ℕ → Pt2 → Pt2) (T : List Pt2),
      3 ≤ z → 1 ≤ n1 → 1 ≤ n2 → 1 ≤ n3 →
      ExtRed.R n1 n2 n3 + n3 - 1 ≤ T.length →
      (ExtRed.cells n1 n2 n3 T.length z origin).length = z * origin.length ∧
        (ExtRed.nodes n1 n2 n3 z rotFn T).length < z * T.length) ∧
    (∀ (n1 n2 n3 na nf z : ℕ) (origin : List Cell) (rotFn : ℕ → Pt2 → Pt2) (T : List Pt2),
      3 ≤ z → 1 ≤ n3 →
      16 + ExtNorm.E n1 n2 n3 na nf ≤ T.length →
      (ExtNorm.cells n1 n2 n3 na nf T.length z origin).length = z * origin.length ∧
        (ExtNorm.nodes n1 n2 n3 na nf z rotFn T).length < z * T.length) ∧
    (∀ (n1 n2 n3 K z : ℕ) (origin : List Cell) (rotFn : ℕ → Pt2 → Pt2) (T : List Pt2),
      3 ≤ z → 8 ≤ K → 3 ≤ n1 + n2 + n3 →
      K + 2 * Intl.M n1 n2 n3 ≤ T.length →
      (Intl.cells n1 n2 n3 K T.length z origin).length = z * origin.length ∧
        (Intl.nodes n1 n2 n3 K z rotFn T).length < z * T.length) := by
  refine ⟨?_, ?_, ?_⟩
  · intro n1 n2 n3 z origin rotFn T hz h1 h2 h3 hN
    constructor
    · rw [ExtRed.cells_length]
      congr 1
      omega
    · rw [ExtRed.nodes_length n1 n2 n3 z rotFn T h1 h2 h3 hN]
      have hR' : ExtRed.R n1 n2 n3 = 12 + 2 * (n1 + n2 + n3 - 3) := rfl
      exact totalNodes_shape_lt T.length (n3 + 1) z (by omega) (by omega) hz
  · intro n1 n2 n3 na nf z origin rotFn T hz h3 hN
    constructor
    · rw [ExtNorm.cellsN_length]
      congr 1
      omega
    · rw [ExtNorm.nodesN_length n1 n2 n3 na nf z rotFn T h3 hN]
      have hE' : ExtNorm.E n1 n2 n3 na nf
          = (na - 1) * 8 + (n2 - 1) * 3 + (n1 - 1) * 3 + (n3 - 1) * 5 + (nf - 1) * 4 := rfl
      exact totalNodes_shape_lt T.length (n3 + 1) z (by omega) (by omega) hz
  · intro n1 n2 n3 K z origin rotFn T hz hK h123 hN
    constructor
    · rw [Intl.cellsI_length]
      congr 1
      omega
    · rw [Intl.nodesI_length n1 n2 n3 K z rotFn T hK h123 hN]
      have hM' : Intl.M n1 n2 n3 = n1 + n2 + n3 - 3 := rfl
      exact totalNodes_shape_lt T.length (n1 + n2 + n3 + 1) z (by omega) (by omega) hz

/-- Witness for C1 at `z = 4` with minimal segment counts in each branch
(single-tooth meshes given by their node counts; contents are irrelevant
to the counts). -/
theorem C1_witness :
    ((ExtRed.cells 1 1 1 12 4 [(0, 1, 2, 3)]).length = 4 * 1 ∧
      (ExtRed.nodes 1 1 1 4 (fun _ p => p) (List.replicate 12 ((0 : ℝ), (0 : ℝ)))).length
        < 4 * 12) ∧
    ((ExtNorm.cells 1 1 1 1 1 16 4 [(0, 1, 2, 3)]).length = 4 * 1 ∧
      (ExtNorm.nodes 1 1 1 1 1 4 (fun _ p => p) (List.replicate 16 ((0 : ℝ), (0 : ℝ)))).length
        < 4 * 16) ∧
    ((Intl.cells 1 1 1 14 14 4 [(0, 1, 2, 3)]).length = 4 * 1 ∧
      (Intl.nodes 1 1 1 14 4 (fun _ p => p) (List.replicate 14 ((0 : ℝ), (0 : ℝ)))).length
        < 4 * 14) := by
  obtain ⟨hred, hnorm, hintl⟩ := C1_amended
  refine ⟨?_, ?_, ?_⟩
  · have h := hred 1 1 1 4 [(0, 1, 2, 3)] (fun _ p => p)
      (List.replicate 12 ((0 : ℝ), (0 : ℝ)))
      (by norm_num) (by norm_num) (by norm_num) (by norm_num)
      (by simp [ExtRed.R, List.length_replicate])
    simpa using h
  · have h := hnorm 1 1 1 1 1 4 [(0, 1, 2, 3)] (fun _ p => p)
      (List.replicate 16 ((0 : ℝ), (0 : ℝ)))
      (by norm_num) (by norm_num)
      (by simp [ExtNorm.E, List.length_replicate])
    simpa using h
  · have h := hintl 1 1 1 14 4 [(0, 1, 2, 3)] (fun _ p => p)
      (List.replicate 14 ((0 : ℝ), (0 : ℝ)))
      (by norm_num) (by norm_num) (by norm_num)
      (by simp [Intl.M, List.length_replicate])
    simpa using h

/-! ## Claim C2 — all assembled cell indices are in range -/

/-- C2: in every topology branch, every one of the 4 node indices of every
assembled cell — including those of the last copy's closing remap — is a
valid index into the final node array (indices are naturals, hence
non-negative).  The structural hypotheses are the generator contract: the
single tooth has at least its key-point and boundary edge nodes, and the
single-tooth cells index into the single-tooth node array. -/
theorem C2_cell_indices_valid :
    (∀ (n1 n2 n3 z : ℕ) (origin : List Cell) (rotFn : ℕ → Pt2 → Pt2) (T : List Pt2),
      1 ≤ n1 → 1 ≤ n2 → 1 ≤ n3 →
      ExtRed.R n1 n2 n3 + n3 - 1 ≤ T.length →
      (∀ c ∈ origin, cellLt c T.length) →
      ∀ c ∈ ExtRed.cells n1 n2 n3 T.length z origin,
        cellLt c (ExtRed.nodes n1 n2 n3 z rotFn T).length) ∧
    (∀ (n1 n2 n3 na nf z : ℕ) (origin : List Cell) (rotFn : ℕ → Pt2 → Pt2) (T : List Pt2),
      1 ≤ n1 → 1 ≤ n2 → 1 ≤ n3 → 1 ≤ na → 1 ≤ nf →
      16 + ExtNorm.E n1 n2 n3 na nf ≤ T.length →
      (∀ c ∈ origin, cellLt c T.length) →
      ∀ c ∈ ExtNorm.cells n1 n2 n3 na nf T.length z origin,
        cellLt c (ExtNorm.nodes n1 n2 n3 na nf z rotFn T).length) ∧
    (∀ (n1 n2 n3 K z : ℕ) (origin : List Cell) (rotFn : ℕ → Pt2 → Pt2) (T : List Pt2),
      8 ≤ K → 3 ≤ n1 + n2 + n3 →
      K + 3 * Intl.M n1 n2 n3 ≤ T.length →
      (∀ c ∈ origin, cellLt c T.length) →
      ∀ c ∈ Intl.cells n1 n2 n3 K T.length z origin,
        cellLt c (Intl.nodes n1 n2 n3 K z rotFn T).length) := by
  refine ⟨?_, ?_, ?_⟩
  · intro n1 n2 n3 z origin rotFn T h1 h2 h3 hN horig
    rw [ExtRed.nodes_length n1 n2 n3 z rotFn T h1 h2 h3 hN]
    exact ExtRed.cells_bounded n1 n2 n3 T.length z origin h1 h2 h3 hN horig
  · intro n1 n2 n3 na nf z origin rotFn T h1 h2 h3 ha hf hN horig
    rw [ExtNorm.nodesN_length n1 n2 n3 na nf z rotFn T h3 hN]
    exact ExtNorm.cellsN_bounded n1 n2 n3 na nf T.length z origin h1 h2 h3 ha hf hN horig
  · intro n1 n2 n3 K z origin rotFn T hK h123 hN horig
    have hM' : Intl.M n1 n2 n3 = n1 + n2 + n3 - 3 := rfl
    rw [Intl.nodesI_length n1 n2 n3 K z rotFn T hK h123 (by omega)]
    exact Intl.cellsI_bounded n1 n2 n3 K T.length z origin hK h123 hN horig

/-- Witness for C2 at `z = 4` with minimal segment counts in each branch. -/
theorem C2_witness :
    (∀ c ∈ ExtRed.cells 1 1 1 12 4 [(0, 4, 11, 3)],
      cellLt c (ExtRed.nodes 1 1 1 4 (fun _ p => p)
        (List.replicate 12 ((0 : ℝ), (0 : ℝ)))).length) ∧
    (∀ c ∈ ExtNorm.cells 1 1 1 1 1 16 4 [(0, 12, 14, 15)],
      cellLt c (ExtNorm.nodes 1 1 1 1 1 4 (fun _ p => p)
        (List.replicate 16 ((0 : ℝ), (0 : ℝ)))).length) ∧
    (∀ c ∈ Intl.cells 1 1 1 14 14 4 [(0, 4, 8, 13)],
      cellLt c (Intl.nodes 1 1 1 14 4 (fun _ p => p)
        (List.replicate 14 ((0 : ℝ), (0 : ℝ)))).length) := by
  obtain ⟨hred, hnorm, hintl⟩ := C2_cell_indices_valid
  refine ⟨?_, ?_, ?_⟩
  · exact hred 1 1 1 4 [(0, 4, 11, 3)] (fun _ p => p)
      (List.replicate 12 ((0 : ℝ), (0 : ℝ)))
      (by norm_num) (by norm_num) (by norm_num)
      (by simp [ExtRed.R, List.length_replicate])
      (by intro c hc; simp at hc; subst hc; simp [cellLt, List.length_replicate])
  · exact hnorm 1 1 1 1 1 4 [(0, 12, 14, 15)] (fun _ p => p)
      (List.replicate 16 ((0 : ℝ), (0 : ℝ)))
      (by norm_num) (by norm_num) (by norm_num) (by norm_num) (by norm_num)
      (by simp [ExtNorm.E, List.length_replicate])
      (by intro c hc; simp at hc; subst hc; simp [cellLt, List.length_replicate])
  · exact hintl 1 1 1 14 4 [(0, 4, 8, 13)] (fun _ p => p)
      (List.replicate 14 ((0 : ℝ), (0 : ℝ)))
      (by norm_num) (by norm_num)
      (by simp [Intl.M, List.length_replicate])
      (by intro c hc; simp at hc; subst hc; simp [cellLt, List.length_replicate])

/-! ## Claim C6 — rotational closure of the assembled node set -/

/-- The set of points occurring in a node list. -/
def nodeSet (l : List α) : Set α := {p | p ∈ l}

/-- Membership in a Python slice implies membership in the list. -/
theorem pySlice_subset (T : List α) (a b : ℕ) (p : α) (h : p ∈ pySlice T a b) :
    p ∈ T :=
  List.mem_of_mem_drop (List.mem_of_mem_take h)

/-- The common shape of the assembled node list in all branches: the
single tooth, the rotated `temp` for copies `1 … z-2`, and the rotated
`temp_last` for copy `z-1`, with copy `c` rotated by the `c`-fold step. -/
def stitchShape (f : α → α) (z : ℕ) (T temp tlast : List α) : List α :=
  T ++ temp.map (f^[1])
    ++ (List.range (z - 3)).flatMap (fun i => temp.map (f^[i + 2]))
    ++ tlast.map (f^[z - 1])

/-- The orbit of the single tooth's nodes under `c < z` rotation steps. -/
def orbitSet (f : α → α) (z : ℕ) (T : List α) : Set α :=
  {q | ∃ c < z, ∃ p ∈ T, f^[c] p = q}

/-- Under the stitcher's identification premises, the assembled node set is
exactly the `z`-fold rotation orbit of the single tooth's node set:
the boundary nodes dropped from each copy are recovered from the
neighbouring copy (`Rl = L.map f`), and the last copy's right boundary
closes onto copy 0 via `f^[z] = id` on the tooth. -/
theorem stitch_eq_orbit (f : α → α) (z : ℕ) (hz : 2 ≤ z)
    (T temp tlast L Rl : List α)
    (htempT : ∀ p ∈ temp, p ∈ T) (htlastT : ∀ p ∈ tlast, p ∈ T)
    (hLT : ∀ p ∈ L, p ∈ T) (hRT : ∀ p ∈ Rl, p ∈ T)
    (hcov : ∀ p ∈ T, p ∈ temp ∨ p ∈ L)
    (hcovLast : ∀ p ∈ T, p ∈ tlast ∨ p ∈ L ∨ p ∈ Rl)
    (hLR : Rl = L.map f)
    (hper : ∀ p ∈ T, f^[z] p = p) :
    nodeSet (stitchShape f z T temp tlast) = orbitSet f z T := by
  have key : ∀ c < z, ∀ p ∈ T, f^[c] p ∈ nodeSet (stitchShape f z T temp tlast) := by
    intro c
    induction c using Nat.strong_induction_on with
    | _ c IH =>
      intro hc p hp
      rcases Nat.eq_zero_or_pos c with hc0 | hcpos
      · subst hc0
        simp only [Function.iterate_zero, id_eq, nodeSet, stitchShape,
          Set.mem_setOf_eq, List.mem_append]
        exact Or.inl (Or.inl (Or.inl hp))
      rcases Nat.lt_or_ge c (z - 1) with hcmid | hclast
      · rcases hcov p hp with hpt | hpl
        · rcases Nat.eq_or_lt_of_le hcpos with hc1 | hc2
          · simp only [nodeSet, stitchShape, Set.mem_setOf_eq, List.mem_append]
            refine Or.inl (Or.inl (Or.inr ?_))
            rw [← hc1]
            exact List.mem_map_of_mem _ hpt
          · simp only [nodeSet, stitchShape, Set.mem_setOf_eq, List.mem_append]
            refine Or.inl (Or.inr ?_)
            simp only [List.mem_flatMap, List.mem_range, List.mem_map]
            refine ⟨c - 2, by omega, p, hpt, ?_⟩
            rw [show c - 2 + 2 = c by omega]
        · have hfp : f p ∈ Rl := by
            rw [hLR]
            exact List.mem_map_of_mem f hpl
          have hfpT : f p ∈ T := hRT _ hfp
          have hc1 : c - 1 + 1 = c := by omega
          have hkey : f^[c] p = f^[c - 1] (f p) := by
            conv_lhs => rw [← hc1]
            rw [Function.iterate_succ_apply]
          rw [hkey]
          exact IH (c - 1) (by omega) (by omega) (f p) hfpT
      · have hcz : c = z - 1 := by omega
        subst hcz
        rcases hcovLast p hp with hpt | hpl | hpr
        · simp only [nodeSet, stitchShape, Set.mem_setOf_eq, List.mem_append]
          exact Or.inr (List.mem_map_of_mem _ hpt)
        · have hfp : f p ∈ Rl := by
            rw [hLR]
            exact List.mem_map_of_mem f hpl
          have hfpT : f p ∈ T := hRT _ hfp
          have hz2 : z - 2 + 1 = z - 1 := by omega
          have hstep : f^[z - 1] p = f^[z - 2] (f p) := by
            conv_lhs => rw [← hz2]
            rw [Function.iterate_succ_apply]
          rw [hstep]
          exact IH (z - 2) (by omega) (by omega) (f p) hfpT
        · rw [hLR] at hpr
          obtain ⟨q, hq, rfl⟩ := List.mem_map.mp hpr
          have hclose : f^[z - 1] (f q) = q := by
            rw [← Function.iterate_succ_apply f (z - 1) q, Nat.succ_eq_add_one,
              show z - 1 + 1 = z by omega]
            exact hper q (hLT _ hq)
          rw [hclose]
          simp only [nodeSet, stitchShape, Set.mem_setOf_eq, List.mem_append]
          exact Or.inl (Or.inl (Or.inl (hLT _ hq)))
  ext q
  simp only [nodeSet, orbitSet, Set.mem_setOf_eq]
  constructor
  · intro hq
    simp only [stitchShape, List.mem_append, List.mem_map, List.mem_flatMap,
      List.mem_range] at hq
    rcases hq with ((hq | hq) | hq) | hq
    · exact ⟨0, by omega, q, hq, rfl⟩
    · obtain ⟨p, hp, rfl⟩ := hq
      exact ⟨1, by omega, p, htempT p hp, rfl⟩
    · obtain ⟨i, hi, p, hp, rfl⟩ := hq
      exact ⟨i + 2, by omega, p, htempT p hp, rfl⟩
    · obtain ⟨p, hp, rfl⟩ := hq
      exact ⟨z - 1, by omega, p, htlastT p hp, rfl⟩
  · rintro ⟨c, hc, p, hp, rfl⟩
    exact key c hc p hp

/-- The orbit set is invariant under one rotation step, given `f^[z] = id`
on the tooth. -/
theorem orbit_rot_closed (f : α → α) (z : ℕ) (hz : 1 ≤ z) (T : List α)
    (hper : ∀ p ∈ T, f^[z] p = p) :
    f '' orbitSet f z T = orbitSet f z T := by
  ext q
  simp only [orbitSet, Set.mem_image, Set.mem_setOf_eq]
  constructor
  · rintro ⟨x, ⟨c, hc, p, hp, rfl⟩, rfl⟩
    rcases Nat.eq_or_lt_of_le (by omega : c + 1 ≤ z) with hcz | hcz
    · refine ⟨0, by omega, p, hp, ?_⟩
      rw [Function.iterate_zero, id_eq, ← Function.iterate_succ_apply' f c p,
        Nat.succ_eq_add_one, hcz]
      exact (hper p hp).symm
    · exact ⟨c + 1, hcz, p, hp, Function.iterate_succ_apply' f c p⟩
  · rintro ⟨c, hc, p, hp, rfl⟩
    rcases Nat.eq_zero_or_pos c with hc0 | hcpos
    · subst hc0
      refine ⟨f^[z - 1] p, ⟨z - 1, by omega, p, hp, rfl⟩, ?_⟩
      rw [← Function.iterate_succ_apply' f (z - 1) p, Nat.succ_eq_add_one,
        show z - 1 + 1 = z by omega]
      rw [hper p hp, Function.iterate_zero, id_eq]
    · refine ⟨f^[c - 1] p, ⟨c - 1, by omega, p, hp, rfl⟩, ?_⟩
      rw [← Function.iterate_succ_apply' f (c - 1) p, Nat.succ_eq_add_one,
        show c - 1 + 1 = c by omega]

/-! ### The rotation step and its periodicity -/

theorem rotPt_zero (p : Pt2) : rotPt 0 p = p := by
  simp [rotPt]

theorem rotPt_add (a b : ℝ) (p : Pt2) : rotPt (a + b) p = rotPt a (rotPt b p) := by
  simp only [rotPt, cos_add, sin_add, Prod.mk.injEq]
  constructor <;> ring

theorem rotPt_iterate (theta : ℝ) (c : ℕ) (p : Pt2) :
    (rotPt theta)^[c] p = rotPt (c * theta) p := by
  induction c with
  | zero => simp [rotPt_zero]
  | succ c IH =>
    rw [Function.iterate_succ_apply', IH, ← rotPt_add]
    congr 1
    push_cast
    ring

theorem rotPt_two_pi (p : Pt2) : rotPt (2 * π) p = p := by
  simp [rotPt, Real.cos_two_pi, Real.sin_two_pi]

theorem rotPt_step_periodic (z : ℕ) (hz : 1 ≤ z) (p : Pt2) :
    (rotPt (2 * π / z))^[z] p = p := by
  rw [rotPt_iterate]
  have hzz : (z : ℝ) ≠ 0 := Nat.cast_ne_zero.mpr (by omega)
  rw [show (z : ℝ) * (2 * π / z) = 2 * π by field_simp]
  exact rotPt_two_pi p

/-! ### Coverage helpers for slice decompositions -/

theorem pySlice_zero (T : List α) (b : ℕ) : pySlice T 0 b = T.take b := rfl

theorem mem_take_or_drop (T : List α) (a : ℕ) (p : α) (h : p ∈ T) :
    p ∈ T.take a ∨ p ∈ T.drop a := by
  rw [← List.take_append_drop a T] at h
  exact List.mem_append.mp h

theorem mem_drop_split (T : List α) (a b : ℕ) (hab : a ≤ b) (p : α)
    (h : p ∈ T.drop a) : p ∈ pySlice T a b ∨ p ∈ T.drop b := by
  have hsplit : T.drop a = pySlice T a b ++ T.drop b := by
    conv_lhs => rw [← List.take_append_drop (b - a) (T.drop a)]
    rw [List.drop_drop, show a + (b - a) = b by omega]
    rfl
  rw [hsplit] at h
  exact List.mem_append.mp h

theorem mem_append_subset {l1 l2 : List α} (T : List α)
    (h1 : ∀ p ∈ l1, p ∈ T) (h2 : ∀ p ∈ l2, p ∈ T) :
    ∀ p ∈ l1 ++ l2, p ∈ T := by
  intro p hp
  rcases List.mem_append.mp hp with h | h
  · exact h1 p h
  · exact h2 p h

theorem take_subsetT (T : List α) (a : ℕ) : ∀ p ∈ T.take a, p ∈ T :=
  fun _ => List.mem_of_mem_take

theorem drop_subsetT (T : List α) (a : ℕ) : ∀ p ∈ T.drop a, p ∈ T :=
  fun _ => List.mem_of_mem_drop

theorem pySlice_subsetT (T : List α) (a b : ℕ) : ∀ p ∈ pySlice T a b, p ∈ T :=
  fun p => pySlice_subset T a b p

namespace ExtRed

/-- The single tooth's left-boundary nodes, the ones every copy after the
first drops and re-links to the previous copy: indices `0`, `1` and
`12 … 12+n3-2` (gear.py:387-389, 409-411). -/
def leftBoundary (n3 : ℕ) (T : List α) : List α :=
  pySlice T 0 2 ++ pySlice T 12 (12 + n3 - 1)

/-- The matching right-boundary nodes the previous copy keeps: indices
`11`, `4` and `R … R+n3-2`, in the order the relink pairs them with
`leftBoundary` (gear.py:387-389, 429-434). -/
def rightBoundary (n1 n2 n3 : ℕ) (T : List α) : List α :=
  pySlice T 11 12 ++ pySlice T 4 5
    ++ pySlice T (R n1 n2 n3) (R n1 n2 n3 + n3 - 1)

theorem temp_cover (n3 : ℕ) (h3 : 1 ≤ n3) (T : List α) (p : α) (hp : p ∈ T) :
    p ∈ temp n3 T ∨ p ∈ leftBoundary n3 T := by
  simp only [temp, leftBoundary, List.mem_append, pySlice_zero]
  rcases mem_take_or_drop T 2 p hp with h | h
  · tauto
  rcases mem_drop_split T 2 12 (by omega) p h with h | h
  · tauto
  rcases mem_drop_split T 12 (12 + n3 - 1) (by omega) p h with h | h
  · tauto
  · tauto

theorem tempLast_cover (n1 n2 n3 : ℕ) (h1 : 1 ≤ n1) (h2 : 1 ≤ n2) (h3 : 1 ≤ n3)
    (T : List α) (p : α) (hp : p ∈ T) :
    p ∈ tempLast n1 n2 n3 T ∨ p ∈ leftBoundary n3 T ∨ p ∈ rightBoundary n1 n2 n3 T := by
  simp only [tempLast, leftBoundary, rightBoundary, List.mem_append, pySlice_zero]
  rcases mem_take_or_drop T 2 p hp with h | h
  · tauto
  rcases mem_drop_split T 2 4 (by omega) p h with h | h
  · tauto
  rcases mem_drop_split T 4 5 (by omega) p h with h | h
  · tauto
  rcases mem_drop_split T 5 11 (by omega) p h with h | h
  · tauto
  rcases mem_drop_split T 11 12 (by omega) p h with h | h
  · tauto
  rcases mem_drop_split T 12 (12 + n3 - 1) (by omega) p h with h | h
  · tauto
  rcases mem_drop_split T (12 + n3 - 1) (R n1 n2 n3) (by simp only [R]; omega) p h with h | h
  · tauto
  rcases mem_drop_split T (R n1 n2 n3) (R n1 n2 n3 + n3 - 1) (by omega) p h with h | h
  · tauto
  · tauto

/-- Rotational closure of the reduced external branch's assembled node
set (gear.py:376-446): under the premise that the single tooth's right
boundary is the image of its left boundary under the rotation step, and
that `z` steps return every tooth node to itself, one rotation step maps
the node set onto itself. -/
theorem nodesRed_rot_closed (n1 n2 n3 z : ℕ) (hz : 2 ≤ z)
    (h1 : 1 ≤ n1) (h2 : 1 ≤ n2) (h3 : 1 ≤ n3) (f : α → α) (T : List α)
    (hB : rightBoundary n1 n2 n3 T = (leftBoundary n3 T).map f)
    (hper : ∀ p ∈ T, f^[z] p = p) :
    f '' nodeSet (nodes n1 n2 n3 z (fun c => f^[c]) T)
      = nodeSet (nodes n1 n2 n3 z (fun c => f^[c]) T) := by
  have hstitch : nodes n1 n2 n3 z (fun c => f^[c]) T
      = stitchShape f z T (temp n3 T) (tempLast n1 n2 n3 T) := rfl
  rw [hstitch,
    stitch_eq_orbit f z hz T (temp n3 T) (tempLast n1 n2 n3 T)
      (leftBoundary n3 T) (rightBoundary n1 n2 n3 T)
      (mem_append_subset T (pySlice_subsetT T 2 12) (drop_subsetT T (12 + n3 - 1)))
      (mem_append_subset T
        (mem_append_subset T
          (mem_append_subset T (pySlice_subsetT T 2 4) (pySlice_subsetT T 5 11))
          (pySlice_subsetT T (12 + n3 - 1) (R n1 n2 n3)))
        (drop_subsetT T (R n1 n2 n3 + n3 - 1)))
      (mem_append_subset T (pySlice_subsetT T 0 2)
        (pySlice_subsetT T 12 (12 + n3 - 1)))
      (mem_append_subset T
        (mem_append_subset T (pySlice_subsetT T 11 12) (pySlice_subsetT T 4 5))
        (pySlice_subsetT T (R n1 n2 n3) (R n1 n2 n3 + n3 - 1)))
      (temp_cover n3 h3 T) (tempLast_cover n1 n2 n3 h1 h2 h3 T) hB hper]
  exact orbit_rot_closed f z (by omega) T hper

end ExtRed

namespace ExtNorm

/-- The single tooth's left-boundary nodes dropped by copies `1 … z-1`:
indices `12`, `13` and `Lb … Rb-1` (gear.py:576-579, 601-604). -/
def leftBoundaryN (n1 n2 n3 na nf : ℕ) (T : List α) : List α :=
  pySlice T 12 14 ++ pySlice T (Lb n1 n2 n3 na nf) (Rb n1 n2 n3 na nf)

/-- The matching right-boundary nodes: indices `14`, `15` and
`Rb … Rbe-1`, in relink order (gear.py:576-579, 621-628). -/
def rightBoundaryN (n1 n2 n3 na nf : ℕ) (T : List α) : List α :=
  pySlice T 14 16 ++ pySlice T (Rb n1 n2 n3 na nf) (Rbe n1 n2 n3 na nf)

theorem tempN_cover (n1 n2 n3 na nf : ℕ) (T : List α) (p : α) (hp : p ∈ T) :
    p ∈ temp n1 n2 n3 na nf T ∨ p ∈ leftBoundaryN n1 n2 n3 na nf T := by
  obtain ⟨hf1, hf2, hf3, hf4⟩ := boundary_facts_norm n1 n2 n3 na nf
  simp only [temp, leftBoundaryN, List.mem_append]
  rcases mem_take_or_drop T 12 p hp with h | h
  · tauto
  rcases mem_drop_split T 12 14 (by omega) p h with h | h
  · tauto
  rcases mem_drop_split T 14 (Lb n1 n2 n3 na nf) (by omega) p h with h | h
  · tauto
  rcases mem_drop_split T (Lb n1 n2 n3 na nf) (Rb n1 n2 n3 na nf) (by omega) p h with h | h
  · tauto
  · tauto

theorem tempLastN_cover (n1 n2 n3 na nf : ℕ) (T : List α) (p : α) (hp : p ∈ T) :
    p ∈ tempLast n1 n2 n3 na nf T ∨ p ∈ leftBoundaryN n1 n2 n3 na nf T
      ∨ p ∈ rightBoundaryN n1 n2 n3 na nf T := by
  obtain ⟨hf1, hf2, hf3, hf4⟩ := boundary_facts_norm n1 n2 n3 na nf
  simp only [tempLast, leftBoundaryN, rightBoundaryN, List.mem_append]
  rcases mem_take_or_drop T 12 p hp with h | h
  · tauto
  rcases mem_drop_split T 12 14 (by omega) p h with h | h
  · tauto
  rcases mem_drop_split T 14 16 (by omega) p h with h | h
  · tauto
  rcases mem_drop_split T 16 (Lb n1 n2 n3 na nf) (by omega) p h with h | h
  · tauto
  rcases mem_drop_split T (Lb n1 n2 n3 na nf) (Rb n1 n2 n3 na nf) (by omega) p h with h | h
  · tauto
  rcases mem_drop_split T (Rb n1 n2 n3 na nf) (Rbe n1 n2 n3 na nf) (by omega) p h with h | h
  · tauto
  · tauto

/-- Rotational closure of the normal external branch's assembled node
set (gear.py:557-643), under the boundary-identification premise. -/
theorem nodesNorm_rot_closed (n1 n2 n3 na nf z : ℕ) (hz : 2 ≤ z) (f : α → α)
    (T : List α)
    (hB : rightBoundaryN n1 n2 n3 na nf T = (leftBoundaryN n1 n2 n3 na nf T).map f)
    (hper : ∀ p ∈ T, f^[z] p = p) :
    f '' nodeSet (nodes n1 n2 n3 na nf z (fun c => f^[c]) T)
      = nodeSet (nodes n1 n2 n3 na nf z (fun c => f^[c]) T) := by
  have hstitch : nodes n1 n2 n3 na nf z (fun c => f^[c]) T
      = stitchShape f z T (temp n1 n2 n3 na nf T) (tempLast n1 n2 n3 na nf T) := rfl
  rw [hstitch,
    stitch_eq_orbit f z hz T (temp n1 n2 n3 na nf T) (tempLast n1 n2 n3 na nf T)
      (leftBoundaryN n1 n2 n3 na nf T) (rightBoundaryN n1 n2 n3 na nf T)
      (mem_append_subset T
        (mem_append_subset T (take_subsetT T 12)
          (pySlice_subsetT T 14 (Lb n1 n2 n3 na nf)))
        (drop_subsetT T (Rb n1 n2 n3 na nf)))
      (mem_append_subset T
        (mem_append_subset T (take_subsetT T 12)
          (pySlice_subsetT T 16 (Lb n1 n2 n3 na nf)))
        (drop_subsetT T (Rbe n1 n2 n3 na nf)))
      (mem_append_subset T (pySlice_subsetT T 12 14)
        (pySlice_subsetT T (Lb n1 n2 n3 na nf) (Rb n1 n2 n3 na nf)))
      (mem_append_subset T (pySlice_subsetT T 14 16)
        (pySlice_subsetT T (Rb n1 n2 n3 na nf) (Rbe n1 n2 n3 na nf)))
      (tempN_cover n1 n2 n3 na nf T) (tempLastN_cover n1 n2 n3 na nf T) hB hper]
  exact orbit_rot_closed f z (by omega) T hper

end ExtNorm

namespace Intl

/-- The single tooth's left-boundary nodes dropped by copies `1 … z-1`:
indices `0 … 3` and `K … K+M-1` (gear.py:1014-1021, 1038-1045). -/
def leftBoundaryI (n1 n2 n3 K : ℕ) (T : List α) : List α :=
  pySlice T 0 4 ++ pySlice T K (K + M n1 n2 n3)

/-- The matching right-boundary nodes: indices `4 … 7` and
`K+M … K+2M-1`, in relink order (gear.py:1014-1021, 1060-1070). -/
def rightBoundaryI (n1 n2 n3 K : ℕ) (T : List α) : List α :=
  pySlice T 4 8 ++ pySlice T (K + M n1 n2 n3) (K + 2 * M n1 n2 n3)

theorem tempI_cover (n1 n2 n3 K : ℕ) (hK : 8 ≤ K) (T : List α) (p : α)
    (hp : p ∈ T) :
    p ∈ temp n1 n2 n3 K T ∨ p ∈ leftBoundaryI n1 n2 n3 K T := by
  simp only [temp, leftBoundaryI, List.mem_append, pySlice_zero]
  rcases mem_take_or_drop T 4 p hp with h | h
  · tauto
  rcases mem_drop_split T 4 K (by omega) p h with h | h
  · tauto
  rcases mem_drop_split T K (K + M n1 n2 n3) (by omega) p h with h | h
  · tauto
  · tauto

theorem tempLastI_cover (n1 n2 n3 K : ℕ) (hK : 8 ≤ K) (T : List α) (p : α)
    (hp : p ∈ T) :
    p ∈ tempLast n1 n2 n3 K T ∨ p ∈ leftBoundaryI n1 n2 n3 K T
      ∨ p ∈ rightBoundaryI n1 n2 n3 K T := by
  simp only [tempLast, leftBoundaryI, rightBoundaryI, List.mem_append, pySlice_zero]
  rcases mem_take_or_drop T 4 p hp with h | h
  · tauto
  rcases mem_drop_split T 4 8 (by omega) p h with h | h
  · tauto
  rcases mem_drop_split T 8 K (by omega) p h with h | h
  · tauto
  rcases mem_drop_split T K (K + M n1 n2 n3) (by omega) p h with h | h
  · tauto
  rcases mem_drop_split T (K + M n1 n2 n3) (K + 2 * M n1 n2 n3) (by omega) p h with h | h
  · tauto
  · tauto

/-- Rotational closure of the internal gear's assembled node set
(gear.py:1006-1086, 1240-1319), under the boundary-identification
premise. -/
theorem nodesIntl_rot_closed (n1 n2 n3 K z : ℕ) (hz : 2 ≤ z) (hK : 8 ≤ K)
    (f : α → α) (T : List α)
    (hB : rightBoundaryI n1 n2 n3 K T = (leftBoundaryI n1 n2 n3 K T).map f)
    (hper : ∀ p ∈ T, f^[z] p = p) :
    f '' nodeSet (nodes n1 n2 n3 K z (fun c => f^[c]) T)
      = nodeSet (nodes n1 n2 n3 K z (fun c => f^[c]) T) := by
  have hstitch : nodes n1 n2 n3 K z (fun c => f^[c]) T
      = stitchShape f z T (temp n1 n2 n3 K T) (tempLast n1 n2 n3 K T) := rfl
  rw [hstitch,
    stitch_eq_orbit f z hz T (temp n1 n2 n3 K T) (tempLast n1 n2 n3 K T)
      (leftBoundaryI n1 n2 n3 K T) (rightBoundaryI n1 n2 n3 K T)
      (mem_append_subset T (pySlice_subsetT T 4 K)
        (drop_subsetT T (K + M n1 n2 n3)))
      (mem_append_subset T (pySlice_subsetT T 8 K)
        (drop_subsetT T (K + 2 * M n1 n2 n3)))
      (mem_append_subset T (pySlice_subsetT T 0 4)
        (pySlice_subsetT T K (K + M n1 n2 n3)))
      (mem_append_subset T (pySlice_subsetT T 4 8)
        (pySlice_subsetT T (K + M n1 n2 n3) (K + 2 * M n1 n2 n3)))
      (tempI_cover n1 n2 n3 K hK T) (tempLastI_cover n1 n2 n3 K hK T) hB hper]
  exact orbit_rot_closed f z (by omega) T hper

end Intl

/-- C6: rotational closure of the assembled mesh.  Every `generate_mesh`
variant — reduced external (gear.py:376-446), normal external
(gear.py:557-643) and internal (gear.py:1006-1086, 1240-1319) — builds
the node array from the single tooth's nodes rotated by
`rot_phi[c] = c·2π/z` for copy `c`, dropping each copy's left-boundary
nodes and relinking them to the previous copy, with the final copy's
closing relink onto copy 0's boundary.  Under the geometric premise that
the single tooth's right boundary equals its left boundary rotated by one
pitch `2π/z` (the involute tooth geometry delivered by the external
quad-mesh generator is rotationally periodic), rotating the assembled
node set rigidly by `2π/z` about the origin maps it onto itself, in all
three variants. -/
theorem C6_rotational_closure (z : ℕ) (hz : 2 ≤ z)
    (n1 n2 n3 : ℕ) (h1 : 1 ≤ n1) (h2 : 1 ≤ n2) (h3 : 1 ≤ n3) (T1 : List Pt2)
    (hB1 : ExtRed.rightBoundary n1 n2 n3 T1
      = (ExtRed.leftBoundary n3 T1).map (rotPt (2 * π / z)))
    (m1 m2 m3 na nf : ℕ) (T2 : List Pt2)
    (hB2 : ExtNorm.rightBoundaryN m1 m2 m3 na nf T2
      = (ExtNorm.leftBoundaryN m1 m2 m3 na nf T2).map (rotPt (2 * π / z)))
    (k1 k2 k3 K : ℕ) (hK : 8 ≤ K) (T3 : List Pt2)
    (hB3 : Intl.rightBoundaryI k1 k2 k3 K T3
      = (Intl.leftBoundaryI k1 k2 k3 K T3).map (rotPt (2 * π / z))) :
    (rotPt (2 * π / z) ''
        nodeSet (ExtRed.nodes n1 n2 n3 z (fun c => rotPt (c * (2 * π / z))) T1)
      = nodeSet (ExtRed.nodes n1 n2 n3 z (fun c => rotPt (c * (2 * π / z))) T1)) ∧
    (rotPt (2 * π / z) ''
        nodeSet (ExtNorm.nodes m1 m2 m3 na nf z (fun c => rotPt (c * (2 * π / z))) T2)
      = nodeSet (ExtNorm.nodes m1 m2 m3 na nf z (fun c => rotPt (c * (2 * π / z))) T2)) ∧
    (rotPt (2 * π / z) ''
        nodeSet (Intl.nodes k1 k2 k3 K z (fun c => rotPt (c * (2 * π / z))) T3)
      = nodeSet (Intl.nodes k1 k2 k3 K z (fun c => rotPt (c * (2 * π / z))) T3)) := by
  have hfun : (fun c : ℕ => rotPt ((c : ℝ) * (2 * π / z)))
      = fun c => (rotPt (2 * π / z))^[c] := by
    funext c p
    exact (rotPt_iterate (2 * π / z) c p).symm
  have hper : ∀ T : List Pt2, ∀ p ∈ T, (rotPt (2 * π / z))^[z] p = p :=
    fun T p _ => rotPt_step_periodic z (by omega) p
  rw [hfun]
  exact ⟨ExtRed.nodesRed_rot_closed n1 n2 n3 z hz h1 h2 h3 _ T1 hB1 (hper T1),
    ExtNorm.nodesNorm_rot_closed m1 m2 m3 na nf z hz _ T2 hB2 (hper T2),
    Intl.nodesIntl_rot_closed k1 k2 k3 K z hz hK _ T3 hB3 (hper T3)⟩

/-- Concrete reduced-external tooth node list for the closure witness at
`z = 4`: node 11 is node 0 rotated by `π/2` and node 4 is node 1 rotated
by `π/2`. -/
def c6T1 : List Pt2 :=
  [(1, 0), (2, 0), (0, 0), (0, 0), (0, 2), (0, 0), (0, 0), (0, 0), (0, 0),
    (0, 0), (0, 0), (0, 1)]

/-- Concrete normal-external tooth node list for the closure witness:
nodes 14, 15 are nodes 12, 13 rotated by `π/2`. -/
def c6T2 : List Pt2 :=
  [(0, 0), (0, 0), (0, 0), (0, 0), (0, 0), (0, 0), (0, 0), (0, 0), (0, 0),
    (0, 0), (0, 0), (0, 0), (1, 0), (2, 0), (0, 1), (0, 2)]

/-- Concrete internal tooth node list for the closure witness: nodes 4-7
are nodes 0-3 rotated by `π/2`. -/
def c6T3 : List Pt2 :=
  [(1, 0), (2, 0), (3, 0), (4, 0), (0, 1), (0, 2), (0, 3), (0, 4), (0, 0),
    (0, 0), (0, 0), (0, 0), (0, 0), (0, 0)]

/-- Witness for C6: at `z = 4` (rotation by `π/2`) with concrete tooth
node lists satisfying the boundary premise, all three assembled node
sets are invariant under the pitch rotation. -/
theorem C6_witness :
    (rotPt (2 * π / (4:ℕ)) ''
        nodeSet (ExtRed.nodes 1 1 1 4 (fun c => rotPt (c * (2 * π / (4:ℕ)))) c6T1)
      = nodeSet (ExtRed.nodes 1 1 1 4 (fun c => rotPt (c * (2 * π / (4:ℕ)))) c6T1)) ∧
    (rotPt (2 * π / (4:ℕ)) ''
        nodeSet (ExtNorm.nodes 1 1 1 1 1 4 (fun c => rotPt (c * (2 * π / (4:ℕ)))) c6T2)
      = nodeSet (ExtNorm.nodes 1 1 1 1 1 4 (fun c => rotPt (c * (2 * π / (4:ℕ)))) c6T2)) ∧
    (rotPt (2 * π / (4:ℕ)) ''
        nodeSet (Intl.nodes 1 1 1 14 4 (fun c => rotPt (c * (2 * π / (4:ℕ)))) c6T3)
      = nodeSet (Intl.nodes 1 1 1 14 4 (fun c => rotPt (c * (2 * π / (4:ℕ)))) c6T3)) := by
  have hrot : ∀ x y : ℝ, rotPt (2 * π / (4:ℝ)) (x, y) = (-y, x) := by
    intro x y
    rw [show (2 * π / 4 : ℝ) = π / 2 by ring]
    simp [rotPt, Real.cos_pi_div_two, Real.sin_pi_div_two]
  have hB1 : ExtRed.rightBoundary 1 1 1 c6T1
      = (ExtRed.leftBoundary 1 c6T1).map (rotPt (2 * π / (4:ℕ))) := by
    have e1 : ExtRed.rightBoundary 1 1 1 c6T1
        = [(((0:ℝ), (1:ℝ)) : Pt2), ((0:ℝ), (2:ℝ))] := rfl
    have e2 : ExtRed.leftBoundary 1 c6T1
        = [(((1:ℝ), (0:ℝ)) : Pt2), ((2:ℝ), (0:ℝ))] := rfl
    rw [e1, e2]
    simp [hrot]
  have hB2 : ExtNorm.rightBoundaryN 1 1 1 1 1 c6T2
      = (ExtNorm.leftBoundaryN 1 1 1 1 1 c6T2).map (rotPt (2 * π / (4:ℕ))) := by
    have e1 : ExtNorm.rightBoundaryN 1 1 1 1 1 c6T2
        = [(((0:ℝ), (1:ℝ)) : Pt2), ((0:ℝ), (2:ℝ))] := rfl
    have e2 : ExtNorm.leftBoundaryN 1 1 1 1 1 c6T2
        = [(((1:ℝ), (0:ℝ)) : Pt2), ((2:ℝ), (0:ℝ))] := rfl
    rw [e1, e2]
    simp [hrot]
  have hB3 : Intl.rightBoundaryI 1 1 1 14 c6T3
      = (Intl.leftBoundaryI 1 1 1 14 c6T3).map (rotPt (2 * π / (4:ℕ))) := by
    have e1 : Intl.rightBoundaryI 1 1 1 14 c6T3
        = [(((0:ℝ), (1:ℝ)) : Pt2), ((0:ℝ), (2:ℝ)), ((0:ℝ), (3:ℝ)), ((0:ℝ), (4:ℝ))] := rfl
    have e2 : Intl.leftBoundaryI 1 1 1 14 c6T3
        = [(((1:ℝ), (0:ℝ)) : Pt2), ((2:ℝ), (0:ℝ)), ((3:ℝ), (0:ℝ)), ((4:ℝ), (0:ℝ))] := rfl
    rw [e1, e2]
    simp [hrot]
  exact C6_rotational_closure 4 (by norm_num) 1 1 1 (by norm_num) (by norm_num)
    (by norm_num) c6T1 hB1 1 1 1 1 1 c6T2 hB2 1 1 1 14 (by norm_num) c6T3 hB3

end Gearx
